import Mathlib

/-!
Shallow embedding of the SFF sprite-archive tool (`src/main.cpp` of
leonkasovan/go-sffcli): the four pixel decoders (`Rle8Decode`, `Rle5Decode`,
`Lz5Decode`, `RlePcxDecode`), the sprite-table and palette-resolution logic of
`extractSff` (versions 1 and 2), and the content crop of `initAtlas` together
with the per-sprite copy of `generateAtlas`.

Machine bytes are modelled as `Nat` with an explicit `% 256` at each `uint8_t`
load; a compressed stream is a `List Nat`.  Each decoder loop becomes a step
function on an explicit state record, driven by a fuel-indexed runner (the C
loops have data-dependent trip counts, and two of them can in fact fail to
make progress).  The state carries the list `reads` of every index at which
the compressed buffer was dereferenced, so that the cursor-clamping behaviour
of the decoders can be stated as a theorem.
-/

namespace Sff

/-- The clamped input cursor shared by all four decoders: `i` is the index the
next `srcPx[i]` dereferences, and `reads` records every index dereferenced so
far (`src/main.cpp` reads the compressed buffer only through this pattern). -/
structure Cursor where
  i : Nat
  reads : List Nat
  deriving Repr, DecidableEq

/-- A `srcPx[i]` dereference (a `uint8_t` load) that does not move the cursor. -/
def crPeek (src : List Nat) (c : Cursor) : Nat × Cursor :=
  (src.getD c.i 0 % 256, { c with reads := c.reads ++ [c.i] })

/-- `if (i < srcLen - 1) i++;` — the clamped advance every decoder uses. -/
def crAdv (src : List Nat) (c : Cursor) : Cursor :=
  { c with i := if c.i < src.length - 1 then c.i + 1 else c.i }

/-- `d = srcPx[i]; if (i < srcLen - 1) i++;` — dereference then clamped advance. -/
def crRead (src : List Nat) (c : Cursor) : Nat × Cursor :=
  let p := crPeek src c
  (p.1, crAdv src p.2)

/-! ## Rle8Decode (src/main.cpp:606-641) -/

/-- Loop state of `Rle8Decode`: the cursor, the output write index `j` and the
output written so far (the C code writes `dstPx[j]` for `j = 0, 1, ...`, which
the model renders as appending to `out`, so `out.length = j` throughout). -/
structure Rle8St where
  cur : Cursor
  j : Nat
  out : List Nat
  deriving Repr, DecidableEq

/-- `for (; n > 0; n--) { if (j < dstLen) { dstPx[j] = d; j++; } }` -/
def rle8Write (dstLen d : Nat) : Nat → Rle8St → Rle8St
  | 0, s => s
  | n + 1, s =>
    rle8Write dstLen d n
      (if s.j < dstLen then { s with out := s.out ++ [d], j := s.j + 1 } else s)

/-- One iteration of `Rle8Decode`'s `while (j < dstLen)` loop: read a byte
`d`; if `(d & 0xc0) == 0x40` its low 6 bits give the run length and the next
byte the value, else a single literal `d` is emitted. -/
def rle8Step (src : List Nat) (dstLen : Nat) (s : Rle8St) : Rle8St :=
  let r := crRead src s.cur
  if r.1 &&& 0xc0 = 0x40 then
    let r2 := crRead src r.2
    rle8Write dstLen r2.1 (r.1 &&& 0x3f) { s with cur := r2.2 }
  else
    rle8Write dstLen r.1 1 { s with cur := r.2 }

/-- `while (j < dstLen)` driven by fuel; the Bool tells whether the loop
finished (`j` reached `dstLen`) or the fuel ran out first. -/
def rle8Run (src : List Nat) (dstLen : Nat) : Nat → Rle8St → Rle8St × Bool
  | 0, s => (s, decide (dstLen ≤ s.j))
  | fuel + 1, s =>
    if dstLen ≤ s.j then (s, true)
    else rle8Run src dstLen fuel (rle8Step src dstLen s)

/-- Initial state of `Rle8Decode`'s loop: `i = 0, j = 0`. -/
def rle8Init : Rle8St := ⟨⟨0, []⟩, 0, []⟩

/-- `Rle8Decode(s, srcPx, srcLen)` with `dstLen = Size[0] * Size[1]`, as a
function of fuel (the C loop has no intrinsic bound).  `none` models both the
`srcLen == 0` early return and a loop that has not finished within `fuel`
iterations. -/
def Rle8Decode (fuel w h : Nat) (src : List Nat) : Option (List Nat) :=
  if src.length = 0 then none
  else
    let r := rle8Run src (w * h) fuel rle8Init
    if r.2 then some r.1.out else none

/-! ## RlePcxDecode (src/main.cpp:856-905) -/

/-- Loop state of `RlePcxDecode`: cursor, write index `j`, the per-row
wraparound counter `k`, and the output written so far. -/
structure PcxSt where
  cur : Cursor
  j : Nat
  k : Nat
  out : List Nat
  deriving Repr, DecidableEq

/-- The run loop of `RlePcxDecode`:
`for (; n > 0; n--) { if (k < w && j < dstLen) { dstPx[j] = d; j++; } k++;
if (k == rle) { k = 0; n = 1; } }` — setting `n = 1` right before the `for`'s
`n--` makes the loop exit at the row boundary, so the recursion stops there. -/
def pcxRun1 (w rle dstLen d : Nat) : Nat → PcxSt → PcxSt
  | 0, s => s
  | n + 1, s =>
    let s1 := if s.k < w ∧ s.j < dstLen
      then { s with out := s.out ++ [d], j := s.j + 1 } else s
    if s1.k + 1 = rle then { s1 with k := 0 }
    else pcxRun1 w rle dstLen d n { s1 with k := s1.k + 1 }

/-- One iteration of `RlePcxDecode`'s `while (j < dstLen)` loop: byte
`d >= 0xc0` starts a run of `d & 0x3f` copies of the following byte, any other
byte is a single literal. -/
def pcxStep (src : List Nat) (w rle dstLen : Nat) (s : PcxSt) : PcxSt :=
  let r := crRead src s.cur
  if 0xc0 ≤ r.1 then
    let r2 := crRead src r.2
    pcxRun1 w rle dstLen r2.1 (r.1 &&& 0x3f) { s with cur := r2.2 }
  else
    pcxRun1 w rle dstLen r.1 1 { s with cur := r.2 }

/-- `while (j < dstLen)` of `RlePcxDecode`, driven by fuel. -/
def pcxRun (src : List Nat) (w rle dstLen : Nat) : Nat → PcxSt → PcxSt × Bool
  | 0, s => (s, decide (dstLen ≤ s.j))
  | fuel + 1, s =>
    if dstLen ≤ s.j then (s, true)
    else pcxRun src w rle dstLen fuel (pcxStep src w rle dstLen s)

/-- Initial state of `RlePcxDecode`'s loop: `i = j = k = 0`. -/
def pcxInit : PcxSt := ⟨⟨0, []⟩, 0, 0, []⟩

/-- `RlePcxDecode(s, srcPx, srcLen)`: `w = s->Size[0]`, `dstLen = w * h`, and
`rle` is the row stride `s->rle` (the PCX sub-header's bytes-per-line field,
or 0 for an uncompressed PCX). -/
def RlePcxDecode (fuel w h rle : Nat) (src : List Nat) : Option (List Nat) :=
  if src.length = 0 then none
  else
    let r := pcxRun src w rle (w * h) fuel pcxInit
    if r.2 then some r.1.out else none

/-! ## Rle5Decode (src/main.cpp:643-694) -/

/-- Loop state of `Rle5Decode`. -/
structure Rle5St where
  cur : Cursor
  j : Nat
  out : List Nat
  deriving Repr, DecidableEq

/-- One write `if (j < dstLen) { dstPx[j] = c; j++; }` of `Rle5Decode`. -/
def rle5Put (dstLen c : Nat) (s : Rle5St) : Rle5St :=
  if s.j < dstLen then { s with out := s.out ++ [c], j := s.j + 1 } else s

/-- One `(rl, c)` segment of `Rle5Decode`'s inner loop: the body runs with
`rl` counting down and underflowing to `-1`, i.e. `rl + 1` times. -/
def rle5Seg (dstLen c : Nat) : Nat → Rle5St → Rle5St
  | 0, s => rle5Put dstLen c s
  | rl + 1, s => rle5Seg dstLen c rl (rle5Put dstLen c s)

/-- `Rle5Decode`'s inner `while (1)` loop (src/main.cpp:673-690): after each
segment `dl` is decremented; while it has not underflowed a new
`(count, color)` pair is read from the high-3/low-5 split of the next byte. -/
def rle5Inner (src : List Nat) (dstLen : Nat) : Nat → Nat → Nat → Rle5St → Rle5St
  | 0, rl, c, s => rle5Seg dstLen c rl s
  | dl + 1, rl, c, s =>
    let s1 := rle5Seg dstLen c rl s
    let p1 := crPeek src s1.cur
    let p2 := crPeek src p1.2
    rle5Inner src dstLen dl (p2.1 >>> 5) (p1.1 &&& 0x1f)
      { s1 with cur := crAdv src p2.2 }

/-- One iteration of `Rle5Decode`'s `while (j < dstLen)` loop: read the run
length `rl`, peek the `dl` byte (low 7 bits = draw length, top bit = an
explicit color byte follows, else color 0), then run the inner loop. -/
def rle5Step (src : List Nat) (dstLen : Nat) (s : Rle5St) : Rle5St :=
  let r := crRead src s.cur
  let p1 := crPeek src r.2
  let p2 := crPeek src p1.2
  if p2.1 >>> 7 ≠ 0 then
    let c1 := crAdv src p2.2
    let p3 := crPeek src c1
    rle5Inner src dstLen (p1.1 &&& 0x7f) r.1 p3.1 { s with cur := crAdv src p3.2 }
  else
    rle5Inner src dstLen (p1.1 &&& 0x7f) r.1 0 { s with cur := crAdv src p2.2 }

/-- `while (j < dstLen)` of `Rle5Decode`, driven by fuel. -/
def rle5Run (src : List Nat) (dstLen : Nat) : Nat → Rle5St → Rle5St × Bool
  | 0, s => (s, decide (dstLen ≤ s.j))
  | fuel + 1, s =>
    if dstLen ≤ s.j then (s, true)
    else rle5Run src dstLen fuel (rle5Step src dstLen s)

/-- Initial state of `Rle5Decode`'s loop. -/
def rle5Init : Rle5St := ⟨⟨0, []⟩, 0, []⟩

/-- `Rle5Decode(s, srcPx, srcLen)` with `dstLen = w * h`. -/
def Rle5Decode (fuel w h : Nat) (src : List Nat) : Option (List Nat) :=
  if src.length = 0 then none
  else
    let r := rle5Run src (w * h) fuel rle5Init
    if r.2 then some r.1.out else none

/-! ## Lz5Decode (src/main.cpp:518-604) -/

/-- Loop state of `Lz5Decode`: cursor, write index `j`, the control byte `ct`
with its bit counter `cts`, the recycled-distance-bits accumulator `rb`/`rbc`,
the output, and the trace `brs` of every back-reference write as a pair
(output position `j`, decoded distance `d`). -/
structure Lz5St where
  cur : Cursor
  j : Nat
  ct : Nat
  cts : Nat
  rb : Nat
  rbc : Nat
  out : List Nat
  brs : List (Nat × Nat)
  deriving Repr, DecidableEq

/-- `dstPx[j - d]`.  For `d > j` the C code reads out of bounds (before the
start of the output buffer); the model returns 0 there, and no theorem relies
on that value. -/
def lz5Src (out : List Nat) (j d : Nat) : Nat :=
  if d ≤ j then out.getD (j - d) 0 else 0

/-- The back-reference copy loop
`for (;;) { if (j < dstLen) { dstPx[j] = dstPx[j - d]; j++; } n--;
if (n < 0) break; }`: with entry value `n >= 0` the body runs `n + 1` times,
so the model is called with count `n + 1`. -/
def lz5Back (dstLen d : Nat) : Nat → Lz5St → Lz5St
  | 0, s => s
  | m + 1, s =>
    let s1 := if s.j < dstLen then
        { s with out := s.out ++ [lz5Src s.out s.j d],
                 brs := s.brs ++ [(s.j, d)], j := s.j + 1 }
      else s
    lz5Back dstLen d m s1

/-- The literal run loop `while (n-- > 0 && j < dstLen) { dstPx[j] = d; j++; }`. -/
def lz5Lit (dstLen d : Nat) : Nat → Lz5St → Lz5St
  | 0, s => s
  | m + 1, s =>
    if s.j < dstLen then lz5Lit dstLen d m { s with out := s.out ++ [d], j := s.j + 1 }
    else s

/-- `cts++; if (cts >= 8) { ct = srcPx[i]; cts = 0; if (i < srcLen-1) i++; }` -/
def lz5NextCt (src : List Nat) (s : Lz5St) : Lz5St :=
  if 8 ≤ s.cts + 1 then
    let r := crRead src s.cur
    { s with ct := r.1, cts := 0, cur := r.2 }
  else { s with cts := s.cts + 1 }

/-- One iteration of `Lz5Decode`'s `while (j < dstLen)` loop: the current
control bit selects back-reference (with the two distance encodings) or
literal run (with the two length encodings), then the control bit counter is
advanced. -/
def lz5Step (src : List Nat) (dstLen : Nat) (s : Lz5St) : Lz5St :=
  let r := crRead src s.cur
  let d := r.1
  let s0 := { s with cur := r.2 }
  lz5NextCt src <|
    if s.ct &&& (1 <<< s.cts) ≠ 0 then
      if d &&& 0x3f = 0 then
        let r1 := crRead src s0.cur
        let r2 := crRead src r1.2
        lz5Back dstLen ((d <<< 2 ||| r1.1) + 1) (r2.1 + 2 + 1) { s0 with cur := r2.2 }
      else
        let rb1 := s.rb ||| ((d &&& 0xc0) >>> s.rbc)
        let rbc1 := s.rbc + 2
        if rbc1 < 8 then
          let r1 := crRead src s0.cur
          lz5Back dstLen (r1.1 + 1) ((d &&& 0x3f) + 1)
            { s0 with cur := r1.2, rb := rb1, rbc := rbc1 }
        else
          lz5Back dstLen (rb1 + 1) ((d &&& 0x3f) + 1) { s0 with rb := 0, rbc := 0 }
    else
      if d &&& 0xe0 = 0 then
        let r1 := crRead src s0.cur
        lz5Lit dstLen d (r1.1 + 8) { s0 with cur := r1.2 }
      else
        lz5Lit dstLen (d &&& 0x1f) (d >>> 5) s0

/-- `while (j < dstLen)` of `Lz5Decode`, driven by fuel. -/
def lz5Run (src : List Nat) (dstLen : Nat) : Nat → Lz5St → Lz5St × Bool
  | 0, s => (s, decide (dstLen ≤ s.j))
  | fuel + 1, s =>
    if dstLen ≤ s.j then (s, true)
    else lz5Run src dstLen fuel (lz5Step src dstLen s)

/-- Initial state of `Lz5Decode`: `ct = srcPx[i]` is read (and the cursor
advanced, clamped) before the loop starts. -/
def lz5Init (src : List Nat) : Lz5St :=
  let r := crRead src ⟨0, []⟩
  ⟨r.2, 0, r.1, 0, 0, 0, [], []⟩

/-- The final loop state `Lz5Decode` reaches on the given fuel. -/
def Lz5Final (fuel w h : Nat) (src : List Nat) : Lz5St :=
  (lz5Run src (w * h) fuel (lz5Init src)).1

/-- `Lz5Decode(s, srcPx, srcLen)` with `dstLen = w * h`. -/
def Lz5Decode (fuel w h : Nat) (src : List Nat) : Option (List Nat) :=
  if src.length = 0 then none
  else
    let r := lz5Run src (w * h) fuel (lz5Init src)
    if r.2 then some r.1.out else none

/-! ## The sprite table of `extractSff` (src/main.cpp:1450-1596)

The file-level parsing (seeks, `fread` calls and their error paths) is
abstracted away: the models below reproduce the control flow and the field
assignments of `extractSff`, `readSpriteDataV1`, `readSpriteHeaderV2`,
`readSpriteDataV2` and `spriteCopy` as functions of the already-parsed record
fields.  Pixel decoding itself is modelled by the decoders above and does not
influence any field the claims mention, so the models do not re-run it. -/

/-- The scalar fields of a `Sprite` the claims are about.  `hasData` models
whether the `data` pixel-buffer pointer is non-NULL; the `Pal` pointer is
never assigned anywhere in `main.cpp` and is omitted. -/
structure SpriteM where
  group : Int
  number : Int
  size0 : Nat
  size1 : Nat
  offx : Int
  offy : Int
  palidx : Int
  rle : Int
  coldepth : Nat
  hasData : Bool
  deriving Repr, DecidableEq

/-- `newSprite()`: a zeroed sprite except `palidx = -1`. -/
def newSpriteM : SpriteM :=
  ⟨0, 0, 0, 0, 0, 0, -1, 0, 0, false⟩

/-- `spriteCopy(dst, src)` (src/main.cpp:1433-1447): copies `Group`, `Number`,
`Size`, `Offset`, `palidx`, `rle` and `coldepth` from `src`; the `data`
pointer (`hasData` here) is not copied — the assignment is commented out. -/
def spriteCopy (dst src : SpriteM) : SpriteM :=
  { src with hasData := dst.hasData }

/-- A version-1 sprite record, as parsed by `readSpriteHeaderV1` together
with the bytes `readSpriteDataV1` reads for it: the record's declared data
`size` (size 0 = linked), the `link` index, the identity and offset fields,
the 1-byte same-palette flag `ps`, and the geometry `readPcxHeader` extracts
from the embedded PCX sub-header (the decoded `rle` stride is reset to 0 by
`RlePcxDecode` before the sprite is stored, so it does not appear here). -/
structure V1Rec where
  size : Nat
  link : Nat
  group : Int
  number : Int
  offx : Int
  offy : Int
  ps : Nat
  pcxW : Nat
  pcxH : Nat
  deriving Repr, DecidableEq

instance : Inhabited V1Rec := ⟨⟨0, 0, 0, 0, 0, 0, 0, 0, 0⟩⟩

/-- State of `extractSff`'s version-1 sprite loop: the sprites built so far,
the size of the `sff->palettes` vector, and the index of the sprite the C
variable `Sprite* prev` points at (if any). -/
structure V1St where
  sprites : List SpriteM
  palCount : Nat
  prev : Option Nat
  deriving Repr, DecidableEq

/-- One iteration of `extractSff`'s version-1 sprite loop
(src/main.cpp:1526-1593) combined with the palette logic of
`readSpriteDataV1` (src/main.cpp:1013-1143):
* `size == 0` and `link < i`: `spriteCopy` from the link target;
* `size == 0` otherwise: warning, `palidx = 0`, processing continues;
* otherwise `readSpriteDataV1` runs: with the same-palette flag set and a
  previous sprite present, `palidx` is taken from `prev` (with the
  "incompleted code" fallback allocating a fresh palette slot if that index
  were negative); otherwise a fresh palette is appended and indexed.
  Afterwards `prev` is updated — but a sprite with `Group == 9000` and
  `Number != 0` is skipped by the update (src/main.cpp:1579-1585). -/
def v1ProcRec (st : V1St) (r : V1Rec) : V1St :=
  let i := st.sprites.length
  let s0 : SpriteM :=
    { newSpriteM with group := r.group, number := r.number, offx := r.offx, offy := r.offy }
  if r.size = 0 then
    if r.link < i then
      { st with sprites := st.sprites ++ [spriteCopy s0 (st.sprites.getD r.link newSpriteM)] }
    else
      { st with sprites := st.sprites ++ [{ s0 with palidx := 0 }] }
  else
    let s1 := { s0 with size0 := r.pcxW, size1 := r.pcxH, hasData := true }
    let prev' := if r.group = 9000 ∧ r.number ≠ 0 then st.prev else some i
    if r.ps ≠ 0 ∧ st.prev.isSome then
      let pidx := (st.sprites.getD (st.prev.getD 0) newSpriteM).palidx
      if pidx < 0 then
        { sprites := st.sprites ++ [{ s1 with palidx := st.palCount }],
          palCount := st.palCount + 1, prev := prev' }
      else
        { sprites := st.sprites ++ [{ s1 with palidx := pidx }],
          palCount := st.palCount, prev := prev' }
    else
      { sprites := st.sprites ++ [{ s1 with palidx := st.palCount }],
        palCount := st.palCount + 1, prev := prev' }

/-- The version-1 sprite table `extractSff` builds for a record list. -/
def v1Extract (recs : List V1Rec) : List SpriteM :=
  (recs.foldl v1ProcRec ⟨[], 0, none⟩).sprites

/-- A record is one the `prev` update keeps: non-linked and not excluded by
the `Group == 9000 && Number != 0` special case. -/
def v1Eligible (r : V1Rec) : Bool :=
  r.size != 0 && (r.group != 9000 || r.number == 0)

/-- The index of the last record of `recs` that becomes `prev`. -/
def v1PrevIdx (recs : List V1Rec) : Option Nat :=
  ((List.range recs.length).filter fun j => v1Eligible (recs.getD j default)).getLast?

/-- The index of the last non-linked record of `recs` (the claim's
"immediately-preceding non-linked sprite"). -/
def v1LastNonLinked (recs : List V1Rec) : Option Nat :=
  ((List.range recs.length).filter fun j => (recs.getD j default).size != 0).getLast?

/-- A version-2 palette-table entry: only the `(group, number)` key takes part
in the uniqueness logic of src/main.cpp:1470-1518 (the palette pixel data is
read from the file and does not influence the counts). -/
structure V2PalRec where
  group : Int
  number : Int
  deriving Repr, DecidableEq

/-- The body of the palette loop: a new `(group, number)` key stores a palette
and bumps `numPalettes`; a duplicate key only prints a warning (the
"Incomplete code" path) and stores nothing. -/
def v2PalFold (st : Nat × List (Int × Int)) (p : V2PalRec) : Nat × List (Int × Int) :=
  if (p.group, p.number) ∈ st.2 then st
  else (st.1 + 1, st.2 ++ [(p.group, p.number)])

/-- `sff->palList.numPalettes` after the palette loop
(`for (i = 0; i < NumberOfPalettes && i < MAX_PAL_NO; i++)`, MAX_PAL_NO = 256). -/
def v2NumPalettes (pals : List V2PalRec) : Nat :=
  ((pals.take 256).foldl v2PalFold (0, [])).1

/-- A version-2 sprite record as `readSpriteHeaderV2` parses it
(src/main.cpp:415-493): `format` is the signed `char` format byte (the sprite
field is `rle = -format`), `palette` the `uint16` palette-index field, `size`
the declared data size (0 = linked). -/
structure V2Rec where
  group : Int
  number : Int
  w : Nat
  h : Nat
  offx : Int
  offy : Int
  link : Nat
  format : Int
  coldepth : Nat
  size : Nat
  palette : Nat
  deriving Repr, DecidableEq

instance : Inhabited V2Rec := ⟨⟨0, 0, 0, 0, 0, 0, 0, 0, 0, 0, 0⟩⟩

/-- The sprite as populated by `readSpriteHeaderV2` alone: every scalar field
comes straight from the record; in particular `palidx` is the `uint16`
palette-index field with no bounds check against `numPalettes`. -/
def v2Fresh (r : V2Rec) : SpriteM :=
  { group := r.group, number := r.number, size0 := r.w, size1 := r.h,
    offx := r.offx, offy := r.offy, palidx := (r.palette : Int),
    rle := -r.format, coldepth := r.coldepth, hasData := false }

/-- One iteration of `extractSff`'s version-2 sprite loop
(src/main.cpp:1526-1593 with `readSpriteDataV2`, src/main.cpp:1283-1431):
* `size == 0` and `link < i`: `spriteCopy` from the link target;
* `size == 0` otherwise: warning, `palidx = 0`, processing continues;
* otherwise `readSpriteDataV2` runs: it fails the archive when `rle > 0`
  (a negative format byte); formats 2, 3, 4 and 10 store decoded pixel data
  (file reads and codec success are abstracted as succeeding — none of them
  touches the fields modelled here). -/
def v2ProcRec (st : Option (List SpriteM)) (r : V2Rec) : Option (List SpriteM) :=
  match st with
  | none => none
  | some sprites =>
    let i := sprites.length
    let s0 := v2Fresh r
    if r.size = 0 then
      if r.link < i then
        some (sprites ++ [spriteCopy s0 (sprites.getD r.link newSpriteM)])
      else
        some (sprites ++ [{ s0 with palidx := 0 }])
    else
      if 0 < -r.format then none
      else
        some (sprites ++ [{ s0 with hasData := decide (r.format ∈ ([2, 3, 4, 10] : List Int)) }])

/-- The version-2 result of `extractSff`: the sprite table and
`numPalettes`, or `none` when a sprite aborts the archive. -/
def v2Extract (pals : List V2PalRec) (sprs : List V2Rec) : Option (List SpriteM × Nat) :=
  match sprs.foldl v2ProcRec (some []) with
  | none => none
  | some l => some (l, v2NumPalettes pals)

/-! ## The content crop of `initAtlas` (src/main.cpp:1598-1680) and the
per-sprite copy of `generateAtlas` (src/main.cpp:1733-1745) -/

/-- Pixel `p[y * w + x]` of a sprite's decoded indexed buffer. -/
def pix (p : List Nat) (w x y : Nat) : Nat :=
  p.getD (y * w + x) 0

/-- `for (x = 0; x < w && !p[y*w+x]; x++); if (x < w) ...` — row `y` contains
a nonzero pixel. -/
def rowHas (p : List Nat) (w y : Nat) : Bool :=
  (List.range w).any fun x => pix p w x y != 0

/-- The column scan of the left/right crop loops, over the already row-cropped
band of `sh` rows starting at row `ay`. -/
def colHas (p : List Nat) (w ay sh x : Nat) : Bool :=
  (List.range sh).any fun y => pix p w x (y + ay) != 0

/-- The rectangle `initAtlas` computes for one sprite:
`(atlas_x, atlas_y, rects[i].w, rects[i].h)`. -/
structure CropRect where
  ax : Nat
  ay : Nat
  cw : Nat
  ch : Nat
  deriving Repr, DecidableEq

/-- The value of `int16_t v = u` for a `uint16_t` expression `u`
(two's-complement narrowing, as in `int16_t sprite_width =
sff->sprites[i]->Size[0]` at src/main.cpp:1611-1612). -/
def int16OfUInt16 (v : Nat) : Int :=
  if v % 65536 < 32768 then ((v % 65536 : Nat) : Int)
  else ((v % 65536 : Nat) : Int) - 65536

/-- The four edge scans of `initAtlas` (src/main.cpp:1637-1658) in the case
where both `int16_t` dimensions are positive, so each loop's guard reduces to
its scan condition.  The top loop advances `atlas_y` past leading all-zero
rows (`findIdx` of the first row with content, `H` when there is none,
exactly as the loop leaves `atlas_y = H` after consuming every row); the
bottom loop trims trailing all-zero rows; the two column loops do the same
for columns, scanning only the cropped row band; the final
`if (sprite_width < 1 || sprite_height < 1)` guard collapses an all-zero
sprite to the zero rectangle.  When some row has content all four scans find
one, so only the all-zero case reaches the guard. -/
def cropScan (p : List Nat) (w H : Nat) : CropRect :=
  let ay := (List.range H).findIdx (rowHas p w)
  if ay = H then ⟨0, 0, 0, 0⟩
  else
    let yb := (List.range H).findIdx fun t => rowHas p w (H - 1 - t)
    let sh := (H - 1 - yb) + 1 - ay
    let ax := (List.range w).findIdx (colHas p w ay sh)
    let xb := (List.range w).findIdx fun t => colHas p w ay sh (w - 1 - t)
    ⟨ax, ay, (w - 1 - xb) + 1 - ax, sh⟩

/-- The content crop of `initAtlas` (src/main.cpp:1611-1661).  The scans read
the sprite dimensions through `int16_t sprite_width`/`sprite_height`
(src/main.cpp:1611-1612).  When either truncated value is non-positive
(dimension 0, or `>= 32768` wrapping negative) the left/right loops are
skipped — their guards require `sprite_width > 0 && sprite_height > 0` — and
the final `if (sprite_width < 1 || sprite_height < 1)` guard at
src/main.cpp:1659-1661 resets `sprite_width`, `sprite_height`, `atlas_x` and
`atlas_y` to 0, so the rectangle is `(0,0,0,0)` regardless of content (the
top/bottom scans may run first when only the width wraps, but the guard
discards their `atlas_y`).  Otherwise both `int16_t` values equal the
`uint16_t` dimensions and the four scans run as in `cropScan`. -/
def initAtlasCrop (p : List Nat) (w H : Nat) : CropRect :=
  if 0 < int16OfUInt16 w ∧ 0 < int16OfUInt16 H then cropScan p w H
  else ⟨0, 0, 0, 0⟩

/-- What the claim's "tightest bounding box of the nonzero-index pixels"
means for a rectangle: it contains every nonzero pixel, each of its four
edges touches one (when the sprite has any), and it collapses to the zero
rectangle when the sprite is uniformly zero. -/
def IsTightBBox (p : List Nat) (w H : Nat) (r : CropRect) : Prop :=
  (∀ x y, x < w → y < H → pix p w x y ≠ 0 →
      r.ax ≤ x ∧ x < r.ax + r.cw ∧ r.ay ≤ y ∧ y < r.ay + r.ch) ∧
  ((∃ x y, x < w ∧ y < H ∧ pix p w x y ≠ 0) →
      (∃ x, x < w ∧ pix p w x r.ay ≠ 0) ∧
      (∃ x, x < w ∧ pix p w x (r.ay + r.ch - 1) ≠ 0) ∧
      (∃ y, y < H ∧ pix p w r.ax y ≠ 0) ∧
      (∃ y, y < H ∧ pix p w (r.ax + r.cw - 1) y ≠ 0)) ∧
  ((¬ ∃ x y, x < w ∧ y < H ∧ pix p w x y ≠ 0) → r = ⟨0, 0, 0, 0⟩)

/-- A `memcpy` into a list at a byte offset. -/
def memcpyAt (dst : List Nat) (pos : Nat) (src : List Nat) : List Nat :=
  dst.take pos ++ src ++ dst.drop (pos + src.length)

/-- The per-sprite copy of `generateAtlas` (src/main.cpp:1735-1740): guarded
by `rects[i].w > 0 && rects[i].h > 0`; otherwise row `j` of the cropped
content (source stride = the sprite's uncropped width `sprW`) is copied to
the canvas at `(rects[i].x, rects[i].y)` with stride `atlasW`. -/
def blitSprite (canvas : List Nat) (atlasW rx ry : Nat) (r : CropRect)
    (spr : List Nat) (sprW : Nat) : List Nat :=
  if 0 < r.cw ∧ 0 < r.ch then
    (List.range r.ch).foldl
      (fun acc j => memcpyAt acc (atlasW * ry + rx + j * atlasW)
        ((spr.drop ((r.ay + j) * sprW + r.ax)).take r.cw))
      canvas
  else canvas

/-! ## Concrete fixtures used by the counterexamples and witnesses -/

/-- Three version-1 records: a normal sprite, a `(9000, 1)` sprite (excluded
from the `prev` tracking), and a sprite with the same-palette flag set. -/
def c7Recs : List V1Rec :=
  [⟨16, 0, 1, 0, 0, 0, 0, 3, 3⟩,
   ⟨16, 0, 9000, 1, 0, 0, 0, 3, 3⟩,
   ⟨16, 0, 1, 1, 0, 0, 1, 3, 3⟩]

/-- One version-2 palette entry. -/
def c8Pals : List V2PalRec := [⟨1, 1⟩]

/-- One version-2 sprite record: uncompressed (format 0), declared size 1,
palette-index field 5 — out of range for the single-palette bank. -/
def c8Recs : List V2Rec := [⟨0, 0, 2, 2, 0, 0, 0, 0, 8, 1, 5⟩]

/-- Two version-2 records: a normal uncompressed sprite and a linked record
(size 0) whose link target is the first sprite. -/
def c9Recs : List V2Rec :=
  [⟨1, 2, 2, 2, 0, 0, 0, 0, 8, 1, 3⟩, ⟨7, 8, 9, 9, 0, 0, 0, 0, 8, 0, 4⟩]

/-- The pixel buffer of a 32768-wide, 1-high sprite whose first pixel is
nonzero: the width wraps to `-32768` in `int16_t`, so `initAtlas` skips the
column scans and zeroes the rectangle despite the content. -/
def c10Big : List Nat := 1 :: List.replicate 32767 0

/-! ## Invariant predicates the theorems are stated with -/

/-- The cursor invariant every decoder maintains: the next dereference is at
an index `<= srcLen - 1`, the recorded dereference indices are
non-decreasing, and none of them exceeds the current cursor. -/
def crInv (L : Nat) (c : Cursor) : Prop :=
  c.i ≤ L - 1 ∧ c.reads.Pairwise (· ≤ ·) ∧ ∀ r ∈ c.reads, r ≤ c.i

/-- The clamping behaviour the spec ascribes to the decoders' input cursor:
every dereference of the compressed buffer is at an index `<= srcLen - 1`,
and once an index reaches `srcLen - 1` every later dereference re-reads that
final byte. -/
def ReadsClamped (src : List Nat) (rs : List Nat) : Prop :=
  (∀ r ∈ rs, r ≤ src.length - 1) ∧
  ∀ l1 l2, rs = l1 ++ (src.length - 1) :: l2 → ∀ r ∈ l2, r = src.length - 1

/-- The output invariant of `Lz5Decode`: the write index is the output length
and stays within `dstLen`, and every back-reference write at position `j`
with distance `d` had `d >= 1`, wrote a position now inside the output, and
(whenever the C read was in bounds, i.e. `d <= j`) wrote the byte sitting
`d` positions earlier. -/
def lz5Inv (dstLen : Nat) (s : Lz5St) : Prop :=
  s.j = s.out.length ∧ s.j ≤ dstLen ∧
  ∀ pr ∈ s.brs, 1 ≤ pr.2 ∧ pr.1 < s.out.length ∧
    (pr.2 ≤ pr.1 → s.out.getD pr.1 0 = s.out.getD (pr.1 - pr.2) 0)

/-! # Theorems -/

/-! ## Cursor lemmas -/

theorem crAdv_i_le (src : List Nat) (c : Cursor) (h : c.i ≤ src.length - 1) :
    (crAdv src c).i ≤ src.length - 1 := by
  simp only [crAdv]
  split <;> omega

theorem crAdv_i_ge (src : List Nat) (c : Cursor) : c.i ≤ (crAdv src c).i := by
  simp only [crAdv]
  split <;> omega

theorem crInv_peek (src : List Nat) (c : Cursor) (h : crInv src.length c) :
    crInv src.length (crPeek src c).2 := by
  obtain ⟨h1, h2, h3⟩ := h
  refine ⟨h1, ?_, ?_⟩
  · refine List.pairwise_append.2 ⟨h2, List.pairwise_singleton _ _, ?_⟩
    intro a ha b hb
    rw [List.mem_singleton] at hb
    subst hb
    exact h3 a ha
  · intro r hr
    rcases List.mem_append.1 hr with hr | hr
    · exact h3 r hr
    · rw [List.mem_singleton] at hr
      subst hr
      exact Nat.le_refl _

theorem crInv_adv (src : List Nat) (c : Cursor) (h : crInv src.length c) :
    crInv src.length (crAdv src c) := by
  obtain ⟨h1, h2, h3⟩ := h
  exact ⟨crAdv_i_le src c h1, h2,
    fun r hr => Nat.le_trans (h3 r hr) (crAdv_i_ge src c)⟩

theorem crInv_read (src : List Nat) (c : Cursor) (h : crInv src.length c) :
    crInv src.length (crRead src c).2 :=
  crInv_adv src _ (crInv_peek src c h)

/-! ## Rle8Decode lemmas -/

theorem rle8Write_spec (dstLen d n : Nat) (s : Rle8St) :
    (rle8Write dstLen d n s).out = s.out ++ List.replicate (min n (dstLen - s.j)) d ∧
    (rle8Write dstLen d n s).j = s.j + min n (dstLen - s.j) ∧
    (rle8Write dstLen d n s).cur = s.cur := by
  induction n generalizing s with
  | zero => simp [rle8Write]
  | succ n ih =>
    rw [rle8Write]
    by_cases hlt : s.j < dstLen
    · rw [if_pos hlt]
      obtain ⟨o, j, c⟩ := ih { s with out := s.out ++ [d], j := s.j + 1 }
      refine ⟨?_, ?_, c⟩
      · rw [o]
        dsimp only
        rw [List.append_assoc]
        have hm : min (n + 1) (dstLen - s.j) = min n (dstLen - (s.j + 1)) + 1 := by omega
        rw [hm, List.replicate_succ, List.singleton_append]
      · dsimp only at j
        rw [j]
        omega
    · rw [if_neg hlt]
      obtain ⟨o, j, c⟩ := ih s
      have h0 : dstLen - s.j = 0 := by omega
      refine ⟨?_, ?_, c⟩
      · rw [o, h0]
        simp
      · rw [j, h0]
        simp

theorem rle8Step_jlen (src : List Nat) (dstLen : Nat) (s : Rle8St)
    (h : s.j = s.out.length ∧ s.j ≤ dstLen) :
    (rle8Step src dstLen s).j = (rle8Step src dstLen s).out.length ∧
    (rle8Step src dstLen s).j ≤ dstLen := by
  simp only [rle8Step]
  split
  · obtain ⟨o, j, -⟩ :=
      rle8Write_spec dstLen (crRead src (crRead src s.cur).2).1
        ((crRead src s.cur).1 &&& 0x3f) { s with cur := (crRead src (crRead src s.cur).2).2 }
    rw [o, j]
    dsimp only
    simp only [List.length_append, List.length_replicate]
    omega
  · obtain ⟨o, j, -⟩ :=
      rle8Write_spec dstLen (crRead src s.cur).1 1 { s with cur := (crRead src s.cur).2 }
    rw [o, j]
    dsimp only
    simp only [List.length_append, List.length_replicate]
    omega

theorem rle8Step_inv (src : List Nat) (dstLen : Nat) (s : Rle8St)
    (h : crInv src.length s.cur) : crInv src.length (rle8Step src dstLen s).cur := by
  simp only [rle8Step]
  split
  · obtain ⟨-, -, c⟩ :=
      rle8Write_spec dstLen (crRead src (crRead src s.cur).2).1
        ((crRead src s.cur).1 &&& 0x3f) { s with cur := (crRead src (crRead src s.cur).2).2 }
    rw [c]
    exact crInv_read src _ (crInv_read src _ h)
  · obtain ⟨-, -, c⟩ :=
      rle8Write_spec dstLen (crRead src s.cur).1 1 { s with cur := (crRead src s.cur).2 }
    rw [c]
    exact crInv_read src _ h

theorem rle8Run_jlen (src : List Nat) (dstLen fuel : Nat) (s : Rle8St)
    (h : s.j = s.out.length ∧ s.j ≤ dstLen) :
    (rle8Run src dstLen fuel s).1.j = (rle8Run src dstLen fuel s).1.out.length ∧
    (rle8Run src dstLen fuel s).1.j ≤ dstLen := by
  induction fuel generalizing s with
  | zero => exact h
  | succ fuel ih =>
    rw [rle8Run]
    split
    · exact h
    · exact ih _ (rle8Step_jlen src dstLen s h)

theorem rle8Run_inv (src : List Nat) (dstLen fuel : Nat) (s : Rle8St)
    (h : crInv src.length s.cur) : crInv src.length (rle8Run src dstLen fuel s).1.cur := by
  induction fuel generalizing s with
  | zero => exact h
  | succ fuel ih =>
    rw [rle8Run]
    split
    · exact h
    · exact ih _ (rle8Step_inv src dstLen s h)

theorem rle8Run_true (src : List Nat) (dstLen fuel : Nat) (s : Rle8St)
    (h : (rle8Run src dstLen fuel s).2 = true) :
    dstLen ≤ (rle8Run src dstLen fuel s).1.j := by
  induction fuel generalizing s with
  | zero =>
    rw [rle8Run] at h ⊢
    exact of_decide_eq_true h
  | succ fuel ih =>
    rw [rle8Run] at h ⊢
    by_cases hj : dstLen ≤ s.j
    · rw [if_pos hj] at h ⊢
      exact hj
    · rw [if_neg hj] at h ⊢
      exact ih _ h

/-! ## RlePcxDecode lemmas -/

theorem pcxRun1_spec (w rle dstLen d n : Nat) (s : PcxSt)
    (h : s.j = s.out.length ∧ s.j ≤ dstLen) :
    ((pcxRun1 w rle dstLen d n s).j = (pcxRun1 w rle dstLen d n s).out.length ∧
     (pcxRun1 w rle dstLen d n s).j ≤ dstLen) ∧
    (pcxRun1 w rle dstLen d n s).cur = s.cur := by
  induction n generalizing s with
  | zero => exact ⟨h, rfl⟩
  | succ n ih =>
    rw [pcxRun1]
    by_cases hw : s.k < w ∧ s.j < dstLen
    · rw [if_pos hw]
      dsimp only
      by_cases hb : s.k + 1 = rle
      · rw [if_pos hb]
        refine ⟨⟨?_, ?_⟩, rfl⟩
        · simp [h.1]
        · dsimp only
          omega
      · rw [if_neg hb]
        exact ih _ ⟨by simp [h.1], by dsimp only; omega⟩
    · rw [if_neg hw]
      by_cases hb : s.k + 1 = rle
      · rw [if_pos hb]
        exact ⟨h, rfl⟩
      · rw [if_neg hb]
        exact ih _ h

theorem pcxRun1_row (w rle dstLen d n : Nat) (s : PcxSt) (hk : s.k < rle) :
    (pcxRun1 w rle dstLen d n s).j ≤ s.j + (rle - s.k) ∧
    (pcxRun1 w rle dstLen d n s).k = if s.k + n < rle then s.k + n else 0 := by
  induction n generalizing s with
  | zero =>
    rw [pcxRun1]
    rw [if_pos (by omega : s.k + 0 < rle)]
    omega
  | succ n ih =>
    rw [pcxRun1]
    by_cases hw : s.k < w ∧ s.j < dstLen
    · rw [if_pos hw]
      dsimp only
      by_cases hb : s.k + 1 = rle
      · rw [if_pos hb, if_neg (by omega : ¬s.k + (n + 1) < rle)]
        exact ⟨by dsimp only; omega, rfl⟩
      · rw [if_neg hb]
        obtain ⟨hj, hkk⟩ := ih { cur := s.cur, j := s.j + 1, k := s.k + 1, out := s.out ++ [d] }
          (by dsimp only; omega)
        dsimp only at hj hkk
        refine ⟨by omega, ?_⟩
        rw [hkk]
        have he : s.k + 1 + n = s.k + (n + 1) := by omega
        rw [he]
    · rw [if_neg hw]
      by_cases hb : s.k + 1 = rle
      · rw [if_pos hb, if_neg (by omega : ¬s.k + (n + 1) < rle)]
        exact ⟨by dsimp only; omega, rfl⟩
      · rw [if_neg hb]
        obtain ⟨hj, hkk⟩ := ih { s with k := s.k + 1 } (by dsimp only; omega)
        dsimp only at hj hkk
        refine ⟨by omega, ?_⟩
        rw [hkk]
        have he : s.k + 1 + n = s.k + (n + 1) := by omega
        rw [he]

theorem pcxStep_jlen (src : List Nat) (w rle dstLen : Nat) (s : PcxSt)
    (h : s.j = s.out.length ∧ s.j ≤ dstLen) :
    (pcxStep src w rle dstLen s).j = (pcxStep src w rle dstLen s).out.length ∧
    (pcxStep src w rle dstLen s).j ≤ dstLen := by
  simp only [pcxStep]
  split
  · exact (pcxRun1_spec w rle dstLen _ _
      { s with cur := (crRead src (crRead src s.cur).2).2 } h).1
  · exact (pcxRun1_spec w rle dstLen _ _
      { s with cur := (crRead src s.cur).2 } h).1

theorem pcxRun1_cur (w rle dstLen d n : Nat) (s : PcxSt) :
    (pcxRun1 w rle dstLen d n s).cur = s.cur := by
  induction n generalizing s with
  | zero => rfl
  | succ n ih =>
    rw [pcxRun1]
    by_cases hw : s.k < w ∧ s.j < dstLen
    · rw [if_pos hw]
      dsimp only
      by_cases hb : s.k + 1 = rle
      · rw [if_pos hb]
      · rw [if_neg hb]
        exact ih _
    · rw [if_neg hw]
      by_cases hb : s.k + 1 = rle
      · rw [if_pos hb]
      · rw [if_neg hb]
        exact ih _

theorem pcxStep_inv (src : List Nat) (w rle dstLen : Nat) (s : PcxSt)
    (h : crInv src.length s.cur) : crInv src.length (pcxStep src w rle dstLen s).cur := by
  simp only [pcxStep]
  split
  · rw [pcxRun1_cur w rle dstLen _ _ { s with cur := (crRead src (crRead src s.cur).2).2 }]
    exact crInv_read src _ (crInv_read src _ h)
  · rw [pcxRun1_cur w rle dstLen _ _ { s with cur := (crRead src s.cur).2 }]
    exact crInv_read src _ h

theorem pcxRun_jlen (src : List Nat) (w rle dstLen fuel : Nat) (s : PcxSt)
    (h : s.j = s.out.length ∧ s.j ≤ dstLen) :
    (pcxRun src w rle dstLen fuel s).1.j = (pcxRun src w rle dstLen fuel s).1.out.length ∧
    (pcxRun src w rle dstLen fuel s).1.j ≤ dstLen := by
  induction fuel generalizing s with
  | zero => exact h
  | succ fuel ih =>
    rw [pcxRun]
    split
    · exact h
    · exact ih _ (pcxStep_jlen src w rle dstLen s h)

theorem pcxRun_inv (src : List Nat) (w rle dstLen fuel : Nat) (s : PcxSt)
    (h : crInv src.length s.cur) :
    crInv src.length (pcxRun src w rle dstLen fuel s).1.cur := by
  induction fuel generalizing s with
  | zero => exact h
  | succ fuel ih =>
    rw [pcxRun]
    split
    · exact h
    · exact ih _ (pcxStep_inv src w rle dstLen s h)

theorem pcxRun_true (src : List Nat) (w rle dstLen fuel : Nat) (s : PcxSt)
    (h : (pcxRun src w rle dstLen fuel s).2 = true) :
    dstLen ≤ (pcxRun src w rle dstLen fuel s).1.j := by
  induction fuel generalizing s with
  | zero =>
    rw [pcxRun] at h ⊢
    exact of_decide_eq_true h
  | succ fuel ih =>
    rw [pcxRun] at h ⊢
    by_cases hj : dstLen ≤ s.j
    · rw [if_pos hj] at h ⊢
      exact hj
    · rw [if_neg hj] at h ⊢
      exact ih _ h

/-! ## Rle5Decode lemmas -/

theorem rle5Put_jlen (dstLen c : Nat) (s : Rle5St)
    (h : s.j = s.out.length ∧ s.j ≤ dstLen) :
    (rle5Put dstLen c s).j = (rle5Put dstLen c s).out.length ∧
    (rle5Put dstLen c s).j ≤ dstLen := by
  simp only [rle5Put]
  split
  · dsimp only
    constructor
    · simp [h.1]
    · omega
  · exact h

theorem rle5Put_cur (dstLen c : Nat) (s : Rle5St) : (rle5Put dstLen c s).cur = s.cur := by
  simp only [rle5Put]
  split <;> rfl

theorem rle5Put_ge (dstLen c : Nat) (s : Rle5St) (m : Nat) (hm : m ≤ s.j) :
    m ≤ (rle5Put dstLen c s).j := by
  simp only [rle5Put]
  split
  · dsimp only
    omega
  · omega

theorem rle5Put_pos (dstLen c : Nat) (s : Rle5St) (m : Nat) (hm : m = s.j)
    (h : m < dstLen) : m + 1 ≤ (rle5Put dstLen c s).j := by
  subst hm
  simp only [rle5Put]
  rw [if_pos h]

theorem rle5Seg_jlen (dstLen c rl : Nat) (s : Rle5St)
    (h : s.j = s.out.length ∧ s.j ≤ dstLen) :
    (rle5Seg dstLen c rl s).j = (rle5Seg dstLen c rl s).out.length ∧
    (rle5Seg dstLen c rl s).j ≤ dstLen := by
  induction rl generalizing s with
  | zero => exact rle5Put_jlen dstLen c s h
  | succ rl ih =>
    rw [rle5Seg]
    exact ih _ (rle5Put_jlen dstLen c s h)

theorem rle5Seg_cur (dstLen c rl : Nat) (s : Rle5St) :
    (rle5Seg dstLen c rl s).cur = s.cur := by
  induction rl generalizing s with
  | zero => exact rle5Put_cur dstLen c s
  | succ rl ih =>
    rw [rle5Seg]
    rw [ih _, rle5Put_cur]

theorem rle5Seg_ge (dstLen c rl : Nat) (s : Rle5St) (m : Nat) (hm : m ≤ s.j) :
    m ≤ (rle5Seg dstLen c rl s).j := by
  induction rl generalizing s with
  | zero => exact rle5Put_ge dstLen c s m hm
  | succ rl ih =>
    rw [rle5Seg]
    exact ih _ (rle5Put_ge dstLen c s m hm)

theorem rle5Seg_pos (dstLen c rl : Nat) (s : Rle5St) (m : Nat) (hm : m = s.j)
    (h : m < dstLen) : m + 1 ≤ (rle5Seg dstLen c rl s).j := by
  cases rl with
  | zero => exact rle5Put_pos dstLen c s m hm h
  | succ rl =>
    rw [rle5Seg]
    exact rle5Seg_ge dstLen c rl _ (m + 1) (rle5Put_pos dstLen c s m hm h)

theorem rle5Inner_jlen (src : List Nat) (dstLen dl rl c : Nat) (s : Rle5St)
    (h : s.j = s.out.length ∧ s.j ≤ dstLen) :
    (rle5Inner src dstLen dl rl c s).j = (rle5Inner src dstLen dl rl c s).out.length ∧
    (rle5Inner src dstLen dl rl c s).j ≤ dstLen := by
  induction dl generalizing rl c s with
  | zero => exact rle5Seg_jlen dstLen c rl s h
  | succ dl ih =>
    rw [rle5Inner]
    exact ih _ _ _ (rle5Seg_jlen dstLen c rl s h)

theorem rle5Inner_inv (src : List Nat) (dstLen dl rl c : Nat) (s : Rle5St)
    (h : crInv src.length s.cur) :
    crInv src.length (rle5Inner src dstLen dl rl c s).cur := by
  induction dl generalizing rl c s with
  | zero =>
    rw [rle5Inner, rle5Seg_cur]
    exact h
  | succ dl ih =>
    rw [rle5Inner]
    have hseg : crInv src.length (rle5Seg dstLen c rl s).cur := by
      rw [rle5Seg_cur]
      exact h
    exact ih _ _ _ (crInv_adv src _ (crInv_peek src _ (crInv_peek src _ hseg)))

theorem rle5Inner_ge (src : List Nat) (dstLen dl rl c : Nat) (s : Rle5St) (m : Nat)
    (hm : m ≤ s.j) : m ≤ (rle5Inner src dstLen dl rl c s).j := by
  induction dl generalizing rl c s with
  | zero => exact rle5Seg_ge dstLen c rl s m hm
  | succ dl ih =>
    rw [rle5Inner]
    apply ih
    exact rle5Seg_ge dstLen c rl s m hm

theorem rle5Inner_pos (src : List Nat) (dstLen dl rl c : Nat) (s : Rle5St) (m : Nat)
    (hm : m = s.j) (h : m < dstLen) : m + 1 ≤ (rle5Inner src dstLen dl rl c s).j := by
  cases dl with
  | zero => exact rle5Seg_pos dstLen c rl s m hm h
  | succ dl =>
    rw [rle5Inner]
    apply rle5Inner_ge
    exact rle5Seg_pos dstLen c rl s m hm h

theorem rle5Step_jlen (src : List Nat) (dstLen : Nat) (s : Rle5St)
    (h : s.j = s.out.length ∧ s.j ≤ dstLen) :
    (rle5Step src dstLen s).j = (rle5Step src dstLen s).out.length ∧
    (rle5Step src dstLen s).j ≤ dstLen := by
  simp only [rle5Step]
  split
  · exact rle5Inner_jlen src dstLen _ _ _ _ h
  · exact rle5Inner_jlen src dstLen _ _ _ _ h

theorem rle5Step_inv (src : List Nat) (dstLen : Nat) (s : Rle5St)
    (h : crInv src.length s.cur) : crInv src.length (rle5Step src dstLen s).cur := by
  simp only [rle5Step]
  split
  · apply rle5Inner_inv
    exact crInv_adv src _ (crInv_peek src _ (crInv_adv src _
      (crInv_peek src _ (crInv_peek src _ (crInv_read src _ h)))))
  · apply rle5Inner_inv
    exact crInv_adv src _ (crInv_peek src _ (crInv_peek src _ (crInv_read src _ h)))

theorem rle5Step_pos (src : List Nat) (dstLen : Nat) (s : Rle5St) (h : s.j < dstLen) :
    s.j + 1 ≤ (rle5Step src dstLen s).j := by
  simp only [rle5Step]
  split
  · apply rle5Inner_pos
    · rfl
    · exact h
  · apply rle5Inner_pos
    · rfl
    · exact h

theorem rle5Run_jlen (src : List Nat) (dstLen fuel : Nat) (s : Rle5St)
    (h : s.j = s.out.length ∧ s.j ≤ dstLen) :
    (rle5Run src dstLen fuel s).1.j = (rle5Run src dstLen fuel s).1.out.length ∧
    (rle5Run src dstLen fuel s).1.j ≤ dstLen := by
  induction fuel generalizing s with
  | zero => exact h
  | succ fuel ih =>
    rw [rle5Run]
    split
    · exact h
    · exact ih _ (rle5Step_jlen src dstLen s h)

theorem rle5Run_inv (src : List Nat) (dstLen fuel : Nat) (s : Rle5St)
    (h : crInv src.length s.cur) : crInv src.length (rle5Run src dstLen fuel s).1.cur := by
  induction fuel generalizing s with
  | zero => exact h
  | succ fuel ih =>
    rw [rle5Run]
    split
    · exact h
    · exact ih _ (rle5Step_inv src dstLen s h)

theorem rle5Run_true (src : List Nat) (dstLen fuel : Nat) (s : Rle5St)
    (h : (rle5Run src dstLen fuel s).2 = true) :
    dstLen ≤ (rle5Run src dstLen fuel s).1.j := by
  induction fuel generalizing s with
  | zero =>
    rw [rle5Run] at h ⊢
    exact of_decide_eq_true h
  | succ fuel ih =>
    rw [rle5Run] at h ⊢
    by_cases hj : dstLen ≤ s.j
    · rw [if_pos hj] at h ⊢
      exact hj
    · rw [if_neg hj] at h ⊢
      exact ih _ h

theorem rle5Run_complete (src : List Nat) (dstLen fuel : Nat) (s : Rle5St)
    (h : dstLen ≤ s.j + fuel) : (rle5Run src dstLen fuel s).2 = true := by
  induction fuel generalizing s with
  | zero =>
    rw [rle5Run]
    exact decide_eq_true (by omega)
  | succ fuel ih =>
    rw [rle5Run]
    by_cases hj : dstLen ≤ s.j
    · rw [if_pos hj]
    · rw [if_neg hj]
      apply ih
      have := rle5Step_pos src dstLen s (by omega)
      omega

/-! ## Lz5Decode lemmas -/

theorem crRead_fst_lt (src : List Nat) (c : Cursor) : (crRead src c).1 < 256 :=
  Nat.mod_lt _ (by omega)

theorem and_e0_shift (d : Nat) (hlt : d < 256) (h : ¬d &&& 0xe0 = 0) : 1 ≤ d >>> 5 := by
  by_contra hc
  push_neg at hc
  have h5 : d / 2 ^ 5 = 0 := by
    rw [← Nat.shiftRight_eq_div_pow]
    omega
  have h32 : d < 32 := by
    have := (Nat.div_eq_zero_iff (by norm_num : 0 < 2 ^ 5)).1 h5
    omega
  apply h
  interval_cases d <;> decide

theorem lz5Back_inv (dstLen d m : Nat) (s : Lz5St) (hd : 1 ≤ d) (h : lz5Inv dstLen s) :
    lz5Inv dstLen (lz5Back dstLen d m s) := by
  induction m generalizing s with
  | zero => exact h
  | succ m ih =>
    rw [lz5Back]
    by_cases hj : s.j < dstLen
    · rw [if_pos hj]
      apply ih
      obtain ⟨e1, e2, e3⟩ := h
      refine ⟨by dsimp only; simp [e1], by dsimp only; omega, ?_⟩
      dsimp only
      intro pr hpr
      rcases List.mem_append.1 hpr with hpr | hpr
      · obtain ⟨g1, g2, g3⟩ := e3 pr hpr
        refine ⟨g1, by simp; omega, ?_⟩
        intro hle
        rw [List.getD_append _ _ _ _ g2, List.getD_append _ _ _ _ (by omega)]
        exact g3 hle
      · rw [List.mem_singleton] at hpr
        subst hpr
        refine ⟨hd, by simp; omega, ?_⟩
        intro hle
        dsimp only at hle ⊢
        rw [List.getD_append_right _ _ _ _ (by omega : s.out.length ≤ s.j)]
        have hz : s.j - s.out.length = 0 := by omega
        rw [hz]
        have hv : lz5Src s.out s.j d = s.out.getD (s.j - d) 0 := by
          simp only [lz5Src]
          rw [if_pos hle]
        rw [List.getD_append _ _ _ _ (by omega : s.j - d < s.out.length)]
        simp [hv]
    · rw [if_neg hj]
      exact ih _ h

theorem lz5Lit_inv (dstLen d m : Nat) (s : Lz5St) (h : lz5Inv dstLen s) :
    lz5Inv dstLen (lz5Lit dstLen d m s) := by
  induction m generalizing s with
  | zero => exact h
  | succ m ih =>
    rw [lz5Lit]
    by_cases hj : s.j < dstLen
    · rw [if_pos hj]
      apply ih
      obtain ⟨e1, e2, e3⟩ := h
      refine ⟨by dsimp only; simp [e1], by dsimp only; omega, ?_⟩
      dsimp only
      intro pr hpr
      obtain ⟨g1, g2, g3⟩ := e3 pr hpr
      refine ⟨g1, by simp; omega, ?_⟩
      intro hle
      rw [List.getD_append _ _ _ _ g2, List.getD_append _ _ _ _ (by omega)]
      exact g3 hle
    · rw [if_neg hj]
      exact h

theorem lz5NextCt_inv (src : List Nat) (dstLen : Nat) (s : Lz5St) (h : lz5Inv dstLen s) :
    lz5Inv dstLen (lz5NextCt src s) := by
  simp only [lz5NextCt]
  split
  · exact h
  · exact h

theorem lz5NextCt_j (src : List Nat) (s : Lz5St) : (lz5NextCt src s).j = s.j := by
  simp only [lz5NextCt]
  split <;> rfl

theorem lz5NextCt_cur_inv (src : List Nat) (s : Lz5St) (h : crInv src.length s.cur) :
    crInv src.length (lz5NextCt src s).cur := by
  simp only [lz5NextCt]
  split
  · exact crInv_read src _ h
  · exact h

theorem lz5Back_cur (dstLen d m : Nat) (s : Lz5St) : (lz5Back dstLen d m s).cur = s.cur := by
  induction m generalizing s with
  | zero => rfl
  | succ m ih =>
    rw [lz5Back]
    by_cases hj : s.j < dstLen
    · rw [if_pos hj, ih]
    · rw [if_neg hj, ih]

theorem lz5Lit_cur (dstLen d m : Nat) (s : Lz5St) : (lz5Lit dstLen d m s).cur = s.cur := by
  induction m generalizing s with
  | zero => rfl
  | succ m ih =>
    rw [lz5Lit]
    by_cases hj : s.j < dstLen
    · rw [if_pos hj, ih]
    · rw [if_neg hj]

theorem lz5Back_ge (dstLen d m : Nat) (s : Lz5St) (mm : Nat) (hm : mm ≤ s.j) :
    mm ≤ (lz5Back dstLen d m s).j := by
  induction m generalizing s with
  | zero => exact hm
  | succ m ih =>
    rw [lz5Back]
    by_cases hj : s.j < dstLen
    · rw [if_pos hj]
      exact ih _ (by dsimp only; omega)
    · rw [if_neg hj]
      exact ih _ hm

theorem lz5Back_pos (dstLen d m : Nat) (s : Lz5St) (mm : Nat) (hm : mm = s.j)
    (h1 : 1 ≤ m) (h : mm < dstLen) : mm + 1 ≤ (lz5Back dstLen d m s).j := by
  cases m with
  | zero => omega
  | succ m =>
    rw [lz5Back]
    rw [if_pos (by omega : s.j < dstLen)]
    exact lz5Back_ge dstLen d m _ (mm + 1) (by dsimp only; omega)

theorem lz5Lit_ge (dstLen d m : Nat) (s : Lz5St) (mm : Nat) (hm : mm ≤ s.j) :
    mm ≤ (lz5Lit dstLen d m s).j := by
  induction m generalizing s with
  | zero => exact hm
  | succ m ih =>
    rw [lz5Lit]
    by_cases hj : s.j < dstLen
    · rw [if_pos hj]
      exact ih _ (by dsimp only; omega)
    · rw [if_neg hj]
      exact hm

theorem lz5Lit_pos (dstLen d m : Nat) (s : Lz5St) (mm : Nat) (hm : mm = s.j)
    (h1 : 1 ≤ m) (h : mm < dstLen) : mm + 1 ≤ (lz5Lit dstLen d m s).j := by
  cases m with
  | zero => omega
  | succ m =>
    rw [lz5Lit]
    rw [if_pos (by omega : s.j < dstLen)]
    exact lz5Lit_ge dstLen d m _ (mm + 1) (by dsimp only; omega)

theorem lz5Step_inv (src : List Nat) (dstLen : Nat) (s : Lz5St) (h : lz5Inv dstLen s) :
    lz5Inv dstLen (lz5Step src dstLen s) := by
  simp only [lz5Step]
  split
  · split
    · apply lz5NextCt_inv
      apply lz5Back_inv
      · omega
      · exact h
    · split
      · apply lz5NextCt_inv
        apply lz5Back_inv
        · omega
        · exact h
      · apply lz5NextCt_inv
        apply lz5Back_inv
        · omega
        · exact h
  · split
    · apply lz5NextCt_inv
      apply lz5Lit_inv
      exact h
    · apply lz5NextCt_inv
      apply lz5Lit_inv
      exact h

theorem lz5Step_cur_inv (src : List Nat) (dstLen : Nat) (s : Lz5St)
    (h : crInv src.length s.cur) : crInv src.length (lz5Step src dstLen s).cur := by
  simp only [lz5Step]
  split
  · split
    · apply lz5NextCt_cur_inv
      rw [lz5Back_cur]
      exact crInv_read src _ (crInv_read src _ (crInv_read src _ h))
    · split
      · apply lz5NextCt_cur_inv
        rw [lz5Back_cur]
        exact crInv_read src _ (crInv_read src _ h)
      · apply lz5NextCt_cur_inv
        rw [lz5Back_cur]
        exact crInv_read src _ h
  · split
    · apply lz5NextCt_cur_inv
      rw [lz5Lit_cur]
      exact crInv_read src _ (crInv_read src _ h)
    · apply lz5NextCt_cur_inv
      rw [lz5Lit_cur]
      exact crInv_read src _ h

theorem lz5Step_pos (src : List Nat) (dstLen : Nat) (s : Lz5St) (h : s.j < dstLen) :
    s.j + 1 ≤ (lz5Step src dstLen s).j := by
  simp only [lz5Step]
  split
  · split
    · rw [lz5NextCt_j]
      apply lz5Back_pos
      · rfl
      · omega
      · exact h
    · split
      · rw [lz5NextCt_j]
        apply lz5Back_pos
        · rfl
        · omega
        · exact h
      · rw [lz5NextCt_j]
        apply lz5Back_pos
        · rfl
        · omega
        · exact h
  · split
    · rw [lz5NextCt_j]
      apply lz5Lit_pos
      · rfl
      · omega
      · exact h
    · rw [lz5NextCt_j]
      apply lz5Lit_pos
      · rfl
      · rename_i hcond
        exact and_e0_shift _ (crRead_fst_lt src s.cur) hcond
      · exact h

theorem lz5Run_inv (src : List Nat) (dstLen fuel : Nat) (s : Lz5St) (h : lz5Inv dstLen s) :
    lz5Inv dstLen (lz5Run src dstLen fuel s).1 := by
  induction fuel generalizing s with
  | zero => exact h
  | succ fuel ih =>
    rw [lz5Run]
    split
    · exact h
    · exact ih _ (lz5Step_inv src dstLen s h)

theorem lz5Run_cur_inv (src : List Nat) (dstLen fuel : Nat) (s : Lz5St)
    (h : crInv src.length s.cur) : crInv src.length (lz5Run src dstLen fuel s).1.cur := by
  induction fuel generalizing s with
  | zero => exact h
  | succ fuel ih =>
    rw [lz5Run]
    split
    · exact h
    · exact ih _ (lz5Step_cur_inv src dstLen s h)

theorem lz5Run_true (src : List Nat) (dstLen fuel : Nat) (s : Lz5St)
    (h : (lz5Run src dstLen fuel s).2 = true) :
    dstLen ≤ (lz5Run src dstLen fuel s).1.j := by
  induction fuel generalizing s with
  | zero =>
    rw [lz5Run] at h ⊢
    exact of_decide_eq_true h
  | succ fuel ih =>
    rw [lz5Run] at h ⊢
    by_cases hj : dstLen ≤ s.j
    · rw [if_pos hj] at h ⊢
      exact hj
    · rw [if_neg hj] at h ⊢
      exact ih _ h

theorem lz5Run_complete (src : List Nat) (dstLen fuel : Nat) (s : Lz5St)
    (h : dstLen ≤ s.j + fuel) : (lz5Run src dstLen fuel s).2 = true := by
  induction fuel generalizing s with
  | zero =>
    rw [lz5Run]
    exact decide_eq_true (by omega)
  | succ fuel ih =>
    rw [lz5Run]
    by_cases hj : dstLen ≤ s.j
    · rw [if_pos hj]
    · rw [if_neg hj]
      apply ih
      have := lz5Step_pos src dstLen s (by omega)
      omega

theorem lz5Init_inv (src : List Nat) (dstLen : Nat) : lz5Inv dstLen (lz5Init src) := by
  refine ⟨rfl, Nat.zero_le _, ?_⟩
  intro pr hpr
  cases hpr

theorem crInv_zero (src : List Nat) : crInv src.length (⟨0, []⟩ : Cursor) := by
  refine ⟨Nat.zero_le _, List.Pairwise.nil, ?_⟩
  intro r hr
  cases hr

theorem lz5Init_cur_inv (src : List Nat) : crInv src.length (lz5Init src).cur :=
  crInv_read src _ (crInv_zero src)

theorem readsClamped_of_inv (src : List Nat) (c : Cursor) (h : crInv src.length c) :
    ReadsClamped src c.reads := by
  obtain ⟨h1, h2, h3⟩ := h
  constructor
  · intro r hr
    exact Nat.le_trans (h3 r hr) h1
  · intro l1 l2 heq r hr
    have hle : r ≤ src.length - 1 :=
      Nat.le_trans
        (h3 r (by rw [heq]; exact List.mem_append_right _ (List.mem_cons_of_mem _ hr))) h1
    have hge : src.length - 1 ≤ r := by
      rw [heq] at h2
      have hp := (List.pairwise_append.1 h2).2.1
      exact (List.pairwise_cons.1 hp).1 r hr
    omega

/-! ## Claim theorems for the pixel decoders -/

/-- C1: for every declared size and every compressed input, each decoder among
`Rle8Decode`, `Rle5Decode`, `Lz5Decode` and `RlePcxDecode` that returns a
buffer returns one of exactly `w * h` bytes: every write is guarded by
`j < dstLen` (so nothing is produced past `w * h` pixels even if the stream
logically continues) and the loop only finishes once `j` has reached
`dstLen`, so exactly the output indices `0, ..., w * h - 1` are written. -/
theorem claim_c1 : ∀ (fuel w h rle : Nat) (src px : List Nat),
    (Rle8Decode fuel w h src = some px → px.length = w * h) ∧
    (Rle5Decode fuel w h src = some px → px.length = w * h) ∧
    (Lz5Decode fuel w h src = some px → px.length = w * h) ∧
    (RlePcxDecode fuel w h rle src = some px → px.length = w * h) := by
  intro fuel w h rle src px
  refine ⟨?_, ?_, ?_, ?_⟩
  · intro hd
    unfold Rle8Decode at hd
    by_cases hs : src.length = 0
    · rw [if_pos hs] at hd
      cases hd
    · rw [if_neg hs] at hd
      dsimp only at hd
      by_cases hf : (rle8Run src (w * h) fuel rle8Init).2 = true
      · rw [if_pos hf] at hd
        obtain ⟨hj1, hj2⟩ := rle8Run_jlen src (w * h) fuel rle8Init ⟨rfl, Nat.zero_le _⟩
        have ht := rle8Run_true src (w * h) fuel rle8Init hf
        rw [← Option.some.inj hd]
        omega
      · rw [if_neg hf] at hd
        cases hd
  · intro hd
    unfold Rle5Decode at hd
    by_cases hs : src.length = 0
    · rw [if_pos hs] at hd
      cases hd
    · rw [if_neg hs] at hd
      dsimp only at hd
      by_cases hf : (rle5Run src (w * h) fuel rle5Init).2 = true
      · rw [if_pos hf] at hd
        obtain ⟨hj1, hj2⟩ := rle5Run_jlen src (w * h) fuel rle5Init ⟨rfl, Nat.zero_le _⟩
        have ht := rle5Run_true src (w * h) fuel rle5Init hf
        rw [← Option.some.inj hd]
        omega
      · rw [if_neg hf] at hd
        cases hd
  · intro hd
    unfold Lz5Decode at hd
    by_cases hs : src.length = 0
    · rw [if_pos hs] at hd
      cases hd
    · rw [if_neg hs] at hd
      dsimp only at hd
      by_cases hf : (lz5Run src (w * h) fuel (lz5Init src)).2 = true
      · rw [if_pos hf] at hd
        obtain ⟨hj1, hj2, -⟩ := lz5Run_inv src (w * h) fuel (lz5Init src) (lz5Init_inv src (w * h))
        have ht := lz5Run_true src (w * h) fuel (lz5Init src) hf
        rw [← Option.some.inj hd]
        omega
      · rw [if_neg hf] at hd
        cases hd
  · intro hd
    unfold RlePcxDecode at hd
    by_cases hs : src.length = 0
    · rw [if_pos hs] at hd
      cases hd
    · rw [if_neg hs] at hd
      dsimp only at hd
      by_cases hf : (pcxRun src w rle (w * h) fuel pcxInit).2 = true
      · rw [if_pos hf] at hd
        obtain ⟨hj1, hj2⟩ := pcxRun_jlen src w rle (w * h) fuel pcxInit ⟨rfl, Nat.zero_le _⟩
        have ht := pcxRun_true src w rle (w * h) fuel pcxInit hf
        rw [← Option.some.inj hd]
        omega
      · rw [if_neg hf] at hd
        cases hd

/-- C2 (amended): `Rle8Decode` treats a byte `d` with `(d & 0xC0) == 0x40` as
a run header whose low 6 bits give the repeat count, the following byte being
the value (one step appends exactly `min (d & 0x3f) (dstLen - j)` copies),
and any other byte as a single literal pixel; the spec's round-trip example
holds with the run headers correctly encoded as `0x40|3 = 0x43` and
`0x40|2 = 0x42`: decoding `[0x43, 24, 0x42, 5]` with width 5, height 1 yields
exactly `[24, 24, 24, 5, 5]` (the spec's byte sequence `[0xC3, 24, 0xC2, 5]`
sets the top bit as well, which `Rle8Decode` treats as literals). -/
theorem claim_c2 :
    Rle8Decode 8 5 1 [0x43, 24, 0x42, 5] = some [24, 24, 24, 5, 5] ∧
    ∀ (src : List Nat) (dstLen : Nat) (s : Rle8St),
      (rle8Step src dstLen s).out =
        (if (crRead src s.cur).1 &&& 0xc0 = 0x40 then
          s.out ++ List.replicate (min ((crRead src s.cur).1 &&& 0x3f) (dstLen - s.j))
            (crRead src (crRead src s.cur).2).1
        else
          s.out ++ List.replicate (min 1 (dstLen - s.j)) (crRead src s.cur).1) := by
  refine ⟨by decide, ?_⟩
  intro src dstLen s
  simp only [rle8Step]
  by_cases hc : (crRead src s.cur).1 &&& 0xc0 = 0x40
  · simp only [if_pos hc]
    exact (rle8Write_spec dstLen _ _ _).1
  · simp only [if_neg hc]
    exact (rle8Write_spec dstLen _ _ _).1

/-- C2 counterexample: decoding the spec's byte sequence `[0xC3, 24, 0xC2, 5]`
with width 5, height 1 does not reproduce `[24, 24, 24, 5, 5]` (it yields
`[195, 24, 194, 5, 5]`: `0xC3` has top bits `11`, not `01`, so it is a
literal, not a run header). -/
theorem claim_c2_cex :
    Rle8Decode 8 5 1 [0xc3, 24, 0xc2, 5] ≠ some [24, 24, 24, 5, 5] := by decide

/-- C3: in `RlePcxDecode` a byte `>= 0xC0` starts a run of its low 6 bits
copies of the following byte and any other byte is a single literal; the
wraparound counter `k` counts positions within a row and whenever it reaches
the stride `rle` it resets to 0 and the run is cut short (the remaining count
is forced back to 1), so a decoded run never continues across a row boundary:
one run loop advances `j` by at most `rle - k`, leaves `k = k + n` when the
boundary is not reached and `k = 0` when it is; with stride 3 and a 3×2
sprite, the 6-byte run `[0xC6, 7]` is cut at the row boundary and the second
row comes from the following bytes. -/
theorem claim_c3 :
    (∀ (w rle dstLen d n : Nat) (s : PcxSt), s.k < rle →
        (pcxRun1 w rle dstLen d n s).j ≤ s.j + (rle - s.k) ∧
        (pcxRun1 w rle dstLen d n s).k = (if s.k + n < rle then s.k + n else 0)) ∧
    RlePcxDecode 4 3 2 3 [0xc6, 7, 0xc3, 9] = some [7, 7, 7, 9, 9, 9] :=
  ⟨fun w rle dstLen d n s hk => pcxRun1_row w rle dstLen d n s hk, by decide⟩

/-- C4 (amended): every byte produced by a back-reference of `Lz5Decode` at
output position `j` with decoded distance `d` has `d >= 1` (so `j - d < j`)
and writes a position of the final output; whenever `d <= j` — i.e. whenever
the C read `dstPx[j - d]` is in bounds — the written byte equals the output
byte at `j - d`.  (For `d > j` the C code reads before the buffer, so the
in-bounds part of the original claim cannot hold for every input.) -/
theorem claim_c4 : ∀ (fuel w h : Nat) (src : List Nat) (pr : Nat × Nat),
    pr ∈ (Lz5Final fuel w h src).brs →
    1 ≤ pr.2 ∧ pr.1 < (Lz5Final fuel w h src).out.length ∧
      (pr.2 ≤ pr.1 →
        (Lz5Final fuel w h src).out.getD pr.1 0 =
          (Lz5Final fuel w h src).out.getD (pr.1 - pr.2) 0) := by
  intro fuel w h src pr hpr
  have hinv := lz5Run_inv src (w * h) fuel (lz5Init src) (lz5Init_inv src (w * h))
  exact hinv.2.2 pr hpr

/-- C4 witness: on `[2, 37, 1, 0]` (literal 5, then a back-reference with
distance 1) the single back-reference write is at position 1 with distance 1,
and the copied byte matches. -/
theorem claim_c4_witness :
    1 ≤ ((1, 1) : Nat × Nat).2 ∧
      ((1, 1) : Nat × Nat).1 < (Lz5Final 10 2 1 [2, 37, 1, 0]).out.length ∧
      (((1, 1) : Nat × Nat).2 ≤ ((1, 1) : Nat × Nat).1 →
        (Lz5Final 10 2 1 [2, 37, 1, 0]).out.getD ((1, 1) : Nat × Nat).1 0 =
          (Lz5Final 10 2 1 [2, 37, 1, 0]).out.getD
            (((1, 1) : Nat × Nat).1 - ((1, 1) : Nat × Nat).2) 0) :=
  claim_c4 10 2 1 [2, 37, 1, 0] (1, 1) (by decide)

/-- C4 counterexample: on input `[1, 1]` (1×1 sprite) the first symbol is a
back-reference with decoded distance 2 at output position 0, so the C read
index `j - d = -2` is not a valid already-written index: the original claim's
`0 <= j - d` fails. -/
theorem claim_c4_cex :
    (0, 2) ∈ (Lz5Final 10 1 1 [1, 1]).brs ∧
    ¬(((0, 2) : Nat × Nat).2 ≤ ((0, 2) : Nat × Nat).1) := by decide

/-- C5: for every decoder and every compressed input with `srcLen >= 1`, the
input cursor never advances past `srcLen - 1`: every dereference of the
compressed buffer (the `reads` trace) is at an index `<= srcLen - 1`, and
once a dereference hits the final byte every later dereference re-reads that
final byte. -/
theorem claim_c5 : ∀ (src : List Nat) (w h rle fuel : Nat), 1 ≤ src.length →
    ReadsClamped src ((rle8Run src (w * h) fuel rle8Init).1.cur.reads) ∧
    ReadsClamped src ((rle5Run src (w * h) fuel rle5Init).1.cur.reads) ∧
    ReadsClamped src ((lz5Run src (w * h) fuel (lz5Init src)).1.cur.reads) ∧
    ReadsClamped src ((pcxRun src w rle (w * h) fuel pcxInit).1.cur.reads) := by
  intro src w h rle fuel hs
  refine ⟨?_, ?_, ?_, ?_⟩
  · exact readsClamped_of_inv src _ (rle8Run_inv src (w * h) fuel rle8Init (crInv_zero src))
  · exact readsClamped_of_inv src _ (rle5Run_inv src (w * h) fuel rle5Init (crInv_zero src))
  · exact readsClamped_of_inv src _
      (lz5Run_cur_inv src (w * h) fuel (lz5Init src) (lz5Init_cur_inv src))
  · exact readsClamped_of_inv src _ (pcxRun_inv src w rle (w * h) fuel pcxInit (crInv_zero src))

/-- C5 witness: a concrete 1-byte input, 1×1 sprite, fuel 2. -/
theorem claim_c5_witness :
    ReadsClamped [5] ((rle8Run [5] (1 * 1) 2 rle8Init).1.cur.reads) ∧
    ReadsClamped [5] ((rle5Run [5] (1 * 1) 2 rle5Init).1.cur.reads) ∧
    ReadsClamped [5] ((lz5Run [5] (1 * 1) 2 (lz5Init [5])).1.cur.reads) ∧
    ReadsClamped [5] ((pcxRun [5] 1 1 (1 * 1) 2 pcxInit).1.cur.reads) :=
  claim_c5 [5] 1 1 1 2 (by decide)

/-- C6 (amended): `Rle5Decode` and `Lz5Decode` terminate (return a buffer) on
every non-empty input and every declared size: each loop iteration writes at
least one pixel, so fuel `w * h` always suffices.  (`Rle8Decode` and
`RlePcxDecode` do not terminate on every input, see the counterexample.) -/
theorem claim_c6 : ∀ (w h : Nat) (src : List Nat), 1 ≤ src.length →
    (Rle5Decode (w * h) w h src).isSome = true ∧
    (Lz5Decode (w * h) w h src).isSome = true := by
  intro w h src hs
  constructor
  · unfold Rle5Decode
    rw [if_neg (by omega : ¬src.length = 0)]
    dsimp only
    have hc := rle5Run_complete src (w * h) (w * h) rle5Init (by omega)
    rw [if_pos hc]
    rfl
  · unfold Lz5Decode
    rw [if_neg (by omega : ¬src.length = 0)]
    dsimp only
    have hc := lz5Run_complete src (w * h) (w * h) (lz5Init src) (by omega)
    rw [if_pos hc]
    rfl

/-- C6 witness: both decoders return a buffer on the 1-byte input `[7]`. -/
theorem claim_c6_witness :
    (Rle5Decode (1 * 1) 1 1 [7]).isSome = true ∧
    (Lz5Decode (1 * 1) 1 1 [7]).isSome = true :=
  claim_c6 1 1 [7] (by decide)

/-- C6 counterexample: `Rle8Decode` on the 1-byte input `[0x40]` (a run
header with count 0, re-read forever at the clamped cursor) and
`RlePcxDecode` on `[0xC0]` make no progress: one loop iteration maps the
initial state to itself except for the dereference trace (cursor, write
index, output and `k` all unchanged), so no amount of fuel finishes —
the C loops run forever on these inputs. -/
theorem claim_c6_cex :
    Rle8Decode 64 1 1 [0x40] = none ∧
    rle8Step [0x40] 1 rle8Init = { rle8Init with cur := ⟨0, [0, 0]⟩ } ∧
    RlePcxDecode 64 1 1 3 [0xc0] = none ∧
    pcxStep [0xc0] 1 3 1 pcxInit = { pcxInit with cur := ⟨0, [0, 0]⟩ } :=
  ⟨by decide, by decide, by decide, by decide⟩

/-! ## Version-1 sprite loop lemmas -/

theorem v1ProcRec_snoc (st : V1St) (r : V1Rec) :
    ∃ e, (v1ProcRec st r).sprites = st.sprites ++ [e] := by
  unfold v1ProcRec
  dsimp only
  repeat' split
  all_goals exact ⟨_, rfl⟩

theorem v1Fold_len (recs : List V1Rec) (st : V1St) :
    ((recs.foldl v1ProcRec st).sprites).length = st.sprites.length + recs.length := by
  induction recs generalizing st with
  | nil => rfl
  | cons r rest ih =>
    rw [List.foldl_cons, ih]
    obtain ⟨e, he⟩ := v1ProcRec_snoc st r
    rw [he]
    simp
    omega

theorem v1Fold_stable (recs : List V1Rec) (st : V1St) (j : Nat)
    (hj : j < st.sprites.length) :
    ((recs.foldl v1ProcRec st).sprites).getD j newSpriteM = st.sprites.getD j newSpriteM := by
  induction recs generalizing st with
  | nil => rfl
  | cons r rest ih =>
    rw [List.foldl_cons]
    obtain ⟨e, he⟩ := v1ProcRec_snoc st r
    rw [ih _ (by rw [he]; simp; omega), he, List.getD_append _ _ _ _ hj]

theorem v1PrevIdx_concat (recs : List V1Rec) (r : V1Rec) :
    v1PrevIdx (recs ++ [r]) =
      if v1Eligible r then some recs.length else v1PrevIdx recs := by
  unfold v1PrevIdx
  simp only [List.length_append, List.length_singleton]
  rw [List.range_succ, List.filter_append]
  have hcong : ∀ j ∈ List.range recs.length,
      (v1Eligible ((recs ++ [r]).getD j default)) = (v1Eligible (recs.getD j default)) := by
    intro j hj
    rw [List.mem_range] at hj
    rw [List.getD_append _ _ _ _ hj]
  rw [List.filter_congr hcong]
  have hr : (recs ++ [r]).getD recs.length default = r := by
    rw [List.getD_append_right _ _ _ _ (le_refl _)]
    simp
  by_cases he : v1Eligible r
  · rw [if_pos he]
    have hf : List.filter (fun j => v1Eligible ((recs ++ [r]).getD j default))
        [recs.length] = [recs.length] := by
      simp [List.filter, hr, he]
    rw [hf, List.getLast?_concat]
  · rw [if_neg he]
    have hf : List.filter (fun j => v1Eligible ((recs ++ [r]).getD j default))
        [recs.length] = [] := by
      simp [List.filter, hr, he]
    rw [hf, List.append_nil]

theorem v1PrevIdx_mem (recs : List V1Rec) (p : Nat) (h : v1PrevIdx recs = some p) :
    p < recs.length ∧ v1Eligible (recs.getD p default) = true := by
  unfold v1PrevIdx at h
  obtain ⟨ys, hys⟩ := List.getLast?_eq_some_iff.1 h
  have hp : p ∈ (List.range recs.length).filter
      fun j => v1Eligible (recs.getD j default) := by
    rw [hys]
    exact List.mem_append_right _ (List.mem_singleton.2 rfl)
  obtain ⟨h1, h2⟩ := List.mem_filter.1 hp
  exact ⟨List.mem_range.1 h1, h2⟩

theorem v1Eligible_iff (r : V1Rec) :
    v1Eligible r = true ↔ r.size ≠ 0 ∧ (r.group ≠ 9000 ∨ r.number = 0) := by
  unfold v1Eligible
  simp [bne_iff_ne]

theorem v1Prev_update (recs : List V1Rec) (r : V1Rec) (st : V1St)
    (ih1 : st.sprites.length = recs.length) (ih2 : st.prev = v1PrevIdx recs)
    (hsz : ¬r.size = 0) :
    (if r.group = 9000 ∧ r.number ≠ 0 then st.prev else some st.sprites.length) =
      (if v1Eligible r then some recs.length else v1PrevIdx recs) := by
  by_cases h9 : r.group = 9000 ∧ r.number ≠ 0
  · have hne : ¬(v1Eligible r = true) := by
      rw [v1Eligible_iff]
      tauto
    rw [if_pos h9, if_neg hne]
    exact ih2
  · have hyes : v1Eligible r = true := by
      rw [v1Eligible_iff]
      tauto
    rw [if_neg h9, if_pos hyes, ih1]

/-- The state invariant of `extractSff`'s version-1 loop: the table grows one
sprite per record, the C `prev` pointer is the last record the 9000-exclusion
keeps, and every stored sprite has a non-negative palette index. -/
theorem v1Fold_inv (recs : List V1Rec) :
    ((recs.foldl v1ProcRec ⟨[], 0, none⟩).sprites).length = recs.length ∧
    (recs.foldl v1ProcRec ⟨[], 0, none⟩).prev = v1PrevIdx recs ∧
    ∀ sp ∈ (recs.foldl v1ProcRec ⟨[], 0, none⟩).sprites, 0 ≤ sp.palidx := by
  induction recs using List.reverseRecOn with
  | nil =>
    refine ⟨rfl, rfl, ?_⟩
    intro sp hsp
    cases hsp
  | append_singleton recs r ih =>
    obtain ⟨ih1, ih2, ih3⟩ := ih
    rw [List.foldl_append] at *
    simp only [List.foldl_cons, List.foldl_nil]
    set st := recs.foldl v1ProcRec ⟨[], 0, none⟩ with hst
    rw [v1PrevIdx_concat]
    have hpal : ∀ e : SpriteM, (0 ≤ e.palidx) →
        ∀ sp ∈ st.sprites ++ [e], 0 ≤ sp.palidx := by
      intro e he sp hsp
      rcases List.mem_append.1 hsp with hsp | hsp
      · exact ih3 sp hsp
      · rw [List.mem_singleton] at hsp
        subst hsp
        exact he
    unfold v1ProcRec
    dsimp only
    by_cases hsz : r.size = 0
    · rw [if_pos hsz]
      have hne : ¬(v1Eligible r = true) := by
        rw [v1Eligible_iff]
        tauto
      rw [if_neg hne]
      split
      · refine ⟨by simp; omega, ih2, ?_⟩
        apply hpal
        simp only [spriteCopy]
        have hmem : st.sprites.getD r.link newSpriteM ∈ st.sprites := by
          rw [List.getD_eq_getElem st.sprites newSpriteM (by omega)]
          exact List.getElem_mem _
        exact ih3 _ hmem
      · refine ⟨by simp; omega, ih2, ?_⟩
        apply hpal
        exact le_refl 0
    · rw [if_neg hsz]
      by_cases hps : r.ps ≠ 0 ∧ st.prev.isSome
      · rw [if_pos hps]
        by_cases hneg : (st.sprites.getD (st.prev.getD 0) newSpriteM).palidx < 0
        · rw [if_pos hneg]
          refine ⟨by simp; omega, v1Prev_update recs r st ih1 ih2 hsz, ?_⟩
          apply hpal
          exact Int.natCast_nonneg _
        · rw [if_neg hneg]
          refine ⟨by simp; omega, v1Prev_update recs r st ih1 ih2 hsz, ?_⟩
          apply hpal
          dsimp only
          omega
      · rw [if_neg hps]
        refine ⟨by simp; omega, v1Prev_update recs r st ih1 ih2 hsz, ?_⟩
        apply hpal
        exact Int.natCast_nonneg _

/-- C7 (amended): in a version-1 archive, a sprite that is non-linked, has a
nonzero same-palette flag and is preceded by a sprite the `prev` tracking
keeps (non-linked and not a `(group 9000, number != 0)` sprite — those are
excluded from the tracking by src/main.cpp:1579-1585) ends with `palidx`
equal to that sprite's `palidx`; `p` here is the index of the last such
record before `i`. -/
theorem claim_c7 : ∀ (recs : List V1Rec) (i p : Nat),
    i < recs.length →
    (recs.getD i default).size ≠ 0 →
    (recs.getD i default).ps ≠ 0 →
    v1PrevIdx (recs.take i) = some p →
    ((v1Extract recs).getD i newSpriteM).palidx =
      ((v1Extract recs).getD p newSpriteM).palidx := by
  intro recs i p hlen hsz hps hprev
  set pre := recs.take i with hpre
  set r := recs.getD i default with hrdef
  set post := recs.drop (i + 1) with hpost
  have hdecomp : recs = pre ++ r :: post := by
    conv_lhs => rw [← List.take_append_drop i recs]
    congr 1
    rw [hrdef, List.getD_eq_getElem recs default hlen]
    exact List.drop_eq_getElem_cons hlen
  obtain ⟨if1, if2, if3⟩ := v1Fold_inv pre
  set st := pre.foldl v1ProcRec ⟨[], 0, none⟩ with hst
  have hlenpre : pre.length = i := by
    rw [hpre, List.length_take]
    omega
  obtain ⟨hp1, -⟩ := v1PrevIdx_mem pre p hprev
  have hstlen : st.sprites.length = i := by rw [if1, hlenpre]
  have hstprev : st.prev = some p := by rw [if2, hprev]
  have hpidx0 : 0 ≤ (st.sprites.getD p newSpriteM).palidx := by
    apply if3
    rw [List.getD_eq_getElem st.sprites newSpriteM (by omega)]
    exact List.getElem_mem _
  have hcond : r.ps ≠ 0 ∧ st.prev.isSome := ⟨hps, by rw [hstprev]; rfl⟩
  have hsteplen : ((v1ProcRec st r).sprites).length = i + 1 := by
    obtain ⟨e, he⟩ := v1ProcRec_snoc st r
    rw [he]
    simp
    omega
  have hstepA : (((v1ProcRec st r).sprites).getD i newSpriteM).palidx =
      (st.sprites.getD p newSpriteM).palidx := by
    unfold v1ProcRec
    dsimp only
    rw [if_neg hsz, if_pos hcond, hstprev, Option.getD_some,
      if_neg (by omega : ¬(st.sprites.getD p newSpriteM).palidx < 0)]
    dsimp only
    rw [List.getD_append_right _ _ _ _ (by omega : st.sprites.length ≤ i)]
    have hz : i - st.sprites.length = 0 := by omega
    rw [hz]
    rfl
  have hstepB : ((v1ProcRec st r).sprites).getD p newSpriteM =
      st.sprites.getD p newSpriteM := by
    obtain ⟨e, he⟩ := v1ProcRec_snoc st r
    rw [he, List.getD_append _ _ _ _ (by omega : p < st.sprites.length)]
  have hfold : v1Extract recs = ((post.foldl v1ProcRec (v1ProcRec st r)).sprites) := by
    unfold v1Extract
    conv_lhs => rw [hdecomp]
    rw [List.foldl_append, List.foldl_cons]
  have hstab_i : (v1Extract recs).getD i newSpriteM =
      ((v1ProcRec st r).sprites).getD i newSpriteM := by
    rw [hfold]
    exact v1Fold_stable post _ i (by omega)
  have hstab_p : (v1Extract recs).getD p newSpriteM =
      ((v1ProcRec st r).sprites).getD p newSpriteM := by
    rw [hfold]
    exact v1Fold_stable post _ p (by omega)
  rw [hstab_i, hstab_p, hstepB, hstepA]

/-- C7 witness: in the three-record fixture, sprite 2 (flag set) takes the
palette of sprite 0, the last record the `prev` tracking keeps before it. -/
theorem claim_c7_witness :
    ((v1Extract c7Recs).getD 2 newSpriteM).palidx =
      ((v1Extract c7Recs).getD 0 newSpriteM).palidx :=
  claim_c7 c7Recs 2 0 (by decide) (by decide) (by decide) (by decide)

/-- C7 counterexample: sprite 2 of the fixture is non-linked, not the first
sprite, and its same-palette flag is nonzero; the immediately-preceding
non-linked sprite in file order is sprite 1 (group 9000, number 1) with
`palidx = 1`, but sprite 2 ends with `palidx = 0` (sprite 0's palette): the
`Group == 9000 && Number != 0` exclusion skips sprite 1 in the `prev`
tracking, refuting the claim as stated. -/
theorem claim_c7_cex :
    v1LastNonLinked (c7Recs.take 2) = some 1 ∧
    (c7Recs.getD 2 default).size ≠ 0 ∧
    (c7Recs.getD 2 default).ps ≠ 0 ∧
    ((v1Extract c7Recs).getD 2 newSpriteM).palidx = 0 ∧
    ((v1Extract c7Recs).getD 1 newSpriteM).palidx = 1 := by
  refine ⟨by decide, by decide, by decide, by decide, by decide⟩

/-! ## Version-2 sprite loop lemmas -/

theorem v2Fold_none (sprs : List V2Rec) : sprs.foldl v2ProcRec none = none := by
  induction sprs with
  | nil => rfl
  | cons r rest ih =>
    rw [List.foldl_cons]
    exact ih

theorem v2ProcRec_some (cur : List SpriteM) (r : V2Rec) (l : List SpriteM)
    (h : v2ProcRec (some cur) r = some l) : ∃ e, l = cur ++ [e] := by
  unfold v2ProcRec at h
  dsimp only at h
  revert h
  repeat' split
  all_goals intro h
  all_goals first
  | exact ⟨_, (Option.some.inj h).symm⟩
  | cases h

theorem v2Fold_len (sprs : List V2Rec) (cur l : List SpriteM)
    (h : sprs.foldl v2ProcRec (some cur) = some l) :
    l.length = cur.length + sprs.length := by
  induction sprs generalizing cur with
  | nil =>
    obtain rfl := Option.some.inj h
    rfl
  | cons r rest ih =>
    rw [List.foldl_cons] at h
    cases hstep : v2ProcRec (some cur) r with
    | none =>
      rw [hstep, v2Fold_none] at h
      cases h
    | some cur' =>
      rw [hstep] at h
      obtain ⟨e, he⟩ := v2ProcRec_some cur r cur' hstep
      have hl := ih cur' h
      subst he
      simp at hl
      simp
      omega

theorem v2Fold_stable (sprs : List V2Rec) (cur l : List SpriteM) (j : Nat)
    (hj : j < cur.length) (h : sprs.foldl v2ProcRec (some cur) = some l) :
    l.getD j newSpriteM = cur.getD j newSpriteM := by
  induction sprs generalizing cur with
  | nil =>
    obtain rfl := Option.some.inj h
    rfl
  | cons r rest ih =>
    rw [List.foldl_cons] at h
    cases hstep : v2ProcRec (some cur) r with
    | none =>
      rw [hstep, v2Fold_none] at h
      cases h
    | some cur' =>
      rw [hstep] at h
      obtain ⟨e, he⟩ := v2ProcRec_some cur r cur' hstep
      rw [ih cur' (by rw [he]; simp; omega) h, he, List.getD_append _ _ _ _ hj]

theorem v2Fold_split (pre post : List V2Rec) (l : List SpriteM)
    (h : (pre ++ post).foldl v2ProcRec (some []) = some l) :
    ∃ mid, pre.foldl v2ProcRec (some []) = some mid ∧
      post.foldl v2ProcRec (some mid) = some l := by
  rw [List.foldl_append] at h
  cases hmid : pre.foldl v2ProcRec (some []) with
  | none =>
    rw [hmid, v2Fold_none] at h
    cases h
  | some mid =>
    rw [hmid] at h
    exact ⟨mid, rfl, h⟩

theorem v2Fold_nonneg (sprs : List V2Rec) (cur l : List SpriteM)
    (hcur : ∀ sp ∈ cur, 0 ≤ sp.palidx)
    (h : sprs.foldl v2ProcRec (some cur) = some l) :
    ∀ sp ∈ l, 0 ≤ sp.palidx := by
  induction sprs generalizing cur with
  | nil =>
    obtain rfl := Option.some.inj h
    exact hcur
  | cons r rest ih =>
    rw [List.foldl_cons] at h
    cases hstep : v2ProcRec (some cur) r with
    | none =>
      rw [hstep, v2Fold_none] at h
      cases h
    | some cur' =>
      rw [hstep] at h
      refine ih cur' ?_ h
      unfold v2ProcRec at hstep
      dsimp only at hstep
      by_cases hsz : r.size = 0
      · rw [if_pos hsz] at hstep
        by_cases hlink : r.link < cur.length
        · rw [if_pos hlink] at hstep
          obtain rfl := Option.some.inj hstep
          intro sp hsp
          rcases List.mem_append.1 hsp with hsp | hsp
          · exact hcur sp hsp
          · rw [List.mem_singleton] at hsp
            subst hsp
            simp only [spriteCopy]
            apply hcur
            rw [List.getD_eq_getElem cur newSpriteM hlink]
            exact List.getElem_mem _
        · rw [if_neg hlink] at hstep
          obtain rfl := Option.some.inj hstep
          intro sp hsp
          rcases List.mem_append.1 hsp with hsp | hsp
          · exact hcur sp hsp
          · rw [List.mem_singleton] at hsp
            subst hsp
            exact le_refl 0
      · rw [if_neg hsz] at hstep
        by_cases hfmt : 0 < -r.format
        · rw [if_pos hfmt] at hstep
          cases hstep
        · rw [if_neg hfmt] at hstep
          obtain rfl := Option.some.inj hstep
          intro sp hsp
          rcases List.mem_append.1 hsp with hsp | hsp
          · exact hcur sp hsp
          · rw [List.mem_singleton] at hsp
            subst hsp
            exact Int.natCast_nonneg _

/-- C8 (amended): in every version-2 archive `extractSff` parses successfully,
every sprite's resolved palette index is non-negative (it is either the
`uint16` palette-index field, a copy of an earlier sprite's index, or the 0
of the unresolved-link fallback).  The upper bound `palidx < numPalettes` of
the original claim is not checked anywhere, see the counterexample. -/
theorem claim_c8 : ∀ (pals : List V2PalRec) (sprs : List V2Rec)
    (l : List SpriteM) (np : Nat),
    v2Extract pals sprs = some (l, np) → ∀ sp ∈ l, 0 ≤ sp.palidx := by
  intro pals sprs l np h
  unfold v2Extract at h
  cases hf : sprs.foldl v2ProcRec (some []) with
  | none =>
    rw [hf] at h
    cases h
  | some l0 =>
    rw [hf] at h
    have hp := Option.some.inj h
    rw [Prod.ext_iff] at hp
    obtain ⟨hp1, -⟩ := hp
    dsimp only at hp1
    subst hp1
    exact v2Fold_nonneg sprs [] l0 (by intro sp hsp; cases hsp) hf

/-- C8 witness: the single-sprite fixture parses successfully and its sprite
carries a non-negative palette index. -/
theorem claim_c8_witness :
    (0 : Int) ≤ SpriteM.palidx ⟨0, 0, 2, 2, 0, 0, 5, 0, 8, false⟩ :=
  claim_c8 c8Pals c8Recs [⟨0, 0, 2, 2, 0, 0, 5, 0, 8, false⟩] 1 (by decide) _
    (by decide)

/-- C8 counterexample: the fixture archive (one palette, one uncompressed
sprite whose palette-index field is 5) parses successfully, yet the sprite's
`palidx = 5` is not `< numPalettes = 1`: `readSpriteHeaderV2` stores the
field without any bounds check. -/
theorem claim_c8_cex :
    v2Extract c8Pals c8Recs = some ([⟨0, 0, 2, 2, 0, 0, 5, 0, 8, false⟩], 1) ∧
    ¬(SpriteM.palidx ⟨0, 0, 2, 2, 0, 0, 5, 0, 8, false⟩ < ((1 : Nat) : Int)) := by
  refine ⟨by decide, by decide⟩

/-- C9: in a successfully parsed version-2 archive, every record with
declared data size 0 whose link index is below its own index yields a sprite
whose scalar fields (group, number, size, offsets, palidx, rle, coldepth)
are copied from the link target while the pixel buffer is not (the sprite's
`data` stays NULL); any other size-0 record logs a warning, gets
`palidx = 0`, and processing continues with the next record (a size-0 record
never aborts the fold). -/
theorem claim_c9 : ∀ (pals : List V2PalRec) (sprs : List V2Rec)
    (l : List SpriteM) (np : Nat),
    v2Extract pals sprs = some (l, np) →
    ∀ i, i < sprs.length → (sprs.getD i default).size = 0 →
      l.length = sprs.length ∧
      (∀ (cur : List SpriteM) (r : V2Rec), r.size = 0 →
        (v2ProcRec (some cur) r).isSome = true) ∧
      (((sprs.getD i default).link < i →
          (l.getD i newSpriteM).group =
            (l.getD (sprs.getD i default).link newSpriteM).group ∧
          (l.getD i newSpriteM).number =
            (l.getD (sprs.getD i default).link newSpriteM).number ∧
          (l.getD i newSpriteM).size0 =
            (l.getD (sprs.getD i default).link newSpriteM).size0 ∧
          (l.getD i newSpriteM).size1 =
            (l.getD (sprs.getD i default).link newSpriteM).size1 ∧
          (l.getD i newSpriteM).offx =
            (l.getD (sprs.getD i default).link newSpriteM).offx ∧
          (l.getD i newSpriteM).offy =
            (l.getD (sprs.getD i default).link newSpriteM).offy ∧
          (l.getD i newSpriteM).palidx =
            (l.getD (sprs.getD i default).link newSpriteM).palidx ∧
          (l.getD i newSpriteM).rle =
            (l.getD (sprs.getD i default).link newSpriteM).rle ∧
          (l.getD i newSpriteM).coldepth =
            (l.getD (sprs.getD i default).link newSpriteM).coldepth ∧
          (l.getD i newSpriteM).hasData = false) ∧
        (¬(sprs.getD i default).link < i →
          (l.getD i newSpriteM).palidx = 0)) := by
  intro pals sprs l np h i hi hsz
  unfold v2Extract at h
  cases hf : sprs.foldl v2ProcRec (some []) with
  | none =>
    rw [hf] at h
    cases h
  | some l0 =>
    rw [hf] at h
    have hp := Option.some.inj h
    rw [Prod.ext_iff] at hp
    obtain ⟨hp1, -⟩ := hp
    dsimp only at hp1
    subst hp1
    have hlen : l0.length = sprs.length := by
      have := v2Fold_len sprs [] l0 hf
      simpa using this
    refine ⟨hlen, ?_, ?_⟩
    · intro cur r hr
      unfold v2ProcRec
      dsimp only
      rw [if_pos hr]
      split <;> rfl
    · set r := sprs.getD i default with hrdef
      have hdecomp : sprs = sprs.take i ++ r :: sprs.drop (i + 1) := by
        conv_lhs => rw [← List.take_append_drop i sprs]
        congr 1
        rw [hrdef, List.getD_eq_getElem sprs default hi]
        exact List.drop_eq_getElem_cons hi
      rw [hdecomp] at hf
      obtain ⟨mid, hmid, hrest⟩ := v2Fold_split _ _ _ hf
      have hmidlen : mid.length = i := by
        have := v2Fold_len _ [] mid hmid
        rw [List.length_take] at this
        simpa [Nat.min_eq_left (le_of_lt hi)] using this
      rw [List.foldl_cons] at hrest
      constructor
      · intro hlink
        have hstep : v2ProcRec (some mid) r =
            some (mid ++ [spriteCopy (v2Fresh r) (mid.getD r.link newSpriteM)]) := by
          unfold v2ProcRec
          dsimp only
          rw [if_pos hsz, if_pos (by omega : r.link < mid.length)]
        rw [hstep] at hrest
        have hgi : l0.getD i newSpriteM =
            spriteCopy (v2Fresh r) (mid.getD r.link newSpriteM) := by
          rw [v2Fold_stable _ _ _ i (by simp; omega) hrest,
            List.getD_append_right _ _ _ _ (by omega : mid.length ≤ i)]
          have hz : i - mid.length = 0 := by omega
          rw [hz]
          rfl
        have hgl : l0.getD r.link newSpriteM = mid.getD r.link newSpriteM := by
          rw [v2Fold_stable _ _ _ r.link (by simp; omega) hrest,
            List.getD_append _ _ _ _ (by omega : r.link < mid.length)]
        rw [hgi, hgl]
        simp [spriteCopy, v2Fresh]
      · intro hlink
        have hstep : v2ProcRec (some mid) r =
            some (mid ++ [{ v2Fresh r with palidx := 0 }]) := by
          unfold v2ProcRec
          dsimp only
          rw [if_pos hsz, if_neg (by omega : ¬r.link < mid.length)]
        rw [hstep] at hrest
        rw [v2Fold_stable _ _ _ i (by simp; omega) hrest,
          List.getD_append_right _ _ _ _ (by omega : mid.length ≤ i)]
        have hz : i - mid.length = 0 := by omega
        rw [hz]
        rfl

/-- C9 witness: in the two-record fixture (a normal sprite, then a size-0
record linking to it), the linked sprite copies the target's palette index
and carries no pixel data. -/
theorem claim_c9_witness :
    (([⟨1, 2, 2, 2, 0, 0, 3, 0, 8, false⟩,
       ⟨1, 2, 2, 2, 0, 0, 3, 0, 8, false⟩] : List SpriteM).getD 1 newSpriteM).palidx =
      (([⟨1, 2, 2, 2, 0, 0, 3, 0, 8, false⟩,
         ⟨1, 2, 2, 2, 0, 0, 3, 0, 8, false⟩] : List SpriteM).getD
          (c9Recs.getD 1 default).link newSpriteM).palidx :=
  ((claim_c9 c8Pals c9Recs
        [⟨1, 2, 2, 2, 0, 0, 3, 0, 8, false⟩, ⟨1, 2, 2, 2, 0, 0, 3, 0, 8, false⟩] 1
        (by decide) 1 (by decide) (by decide)).2.2.1
      (by decide)).2.2.2.2.2.2.1

/-! ## Atlas crop lemmas -/

theorem rowHas_iff (p : List Nat) (w y : Nat) :
    rowHas p w y = true ↔ ∃ x, x < w ∧ pix p w x y ≠ 0 := by
  unfold rowHas
  simp [List.any_eq_true, List.mem_range, bne_iff_ne]

theorem colHas_iff (p : List Nat) (w ay sh x : Nat) :
    colHas p w ay sh x = true ↔ ∃ t, t < sh ∧ pix p w x (t + ay) ≠ 0 := by
  unfold colHas
  simp [List.any_eq_true, List.mem_range, bne_iff_ne]

theorem findIdx_range_lt {H : Nat} {q : Nat → Bool} (h : ∃ y, y < H ∧ q y = true) :
    (List.range H).findIdx q < H := by
  obtain ⟨y, hy, hq⟩ := h
  have := List.findIdx_lt_length_of_exists ⟨y, List.mem_range.2 hy, hq⟩
  simpa using this

theorem findIdx_range_self {H : Nat} {q : Nat → Bool}
    (h : (List.range H).findIdx q < H) : q ((List.range H).findIdx q) = true := by
  have hlt : (List.range H).findIdx q < (List.range H).length := by simpa using h
  have hq := @List.findIdx_getElem _ q (List.range H) hlt
  rwa [List.getElem_range] at hq

theorem findIdx_range_min {H : Nat} {q : Nat → Bool} {y : Nat}
    (hy : y < (List.range H).findIdx q) (_hyH : y < H) : q y = false := by
  have hq := List.not_of_lt_findIdx hy
  rwa [List.getElem_range] at hq

/-- The four edge scans, taken on their own, compute the tightest bounding
box of the nonzero pixels and collapse an all-zero sprite to the zero
rectangle with an empty blit. -/
theorem cropScan_spec : ∀ (p : List Nat) (w H : Nat),
    IsTightBBox p w H (cropScan p w H) ∧
    ((∀ x, x < w → ∀ y, y < H → pix p w x y = 0) →
      cropScan p w H = ⟨0, 0, 0, 0⟩ ∧
      ∀ (canvas : List Nat) (atlasW rx ry sprW : Nat),
        blitSprite canvas atlasW rx ry (cropScan p w H) p sprW = canvas) := by
  intro p w H
  by_cases hC : ∃ y, y < H ∧ rowHas p w y = true
  case neg =>
    have hay : (List.range H).findIdx (rowHas p w) = H := by
      have hall : ∀ y ∈ List.range H, rowHas p w y = false := by
        intro y hy
        rw [List.mem_range] at hy
        by_contra hq
        exact hC ⟨y, hy, by simpa using hq⟩
      have := List.findIdx_eq_length.2 hall
      simpa using this
    have hcrop : cropScan p w H = ⟨0, 0, 0, 0⟩ := by
      unfold cropScan
      rw [hay, if_pos rfl]
    constructor
    · refine ⟨?_, ?_, ?_⟩
      · intro x y hx hy hpix
        exact absurd ⟨y, hy, (rowHas_iff p w y).2 ⟨x, hx, hpix⟩⟩ hC
      · intro hex
        obtain ⟨x, y, hx, hy, hpix⟩ := hex
        exact absurd ⟨y, hy, (rowHas_iff p w y).2 ⟨x, hx, hpix⟩⟩ hC
      · intro _
        exact hcrop
    · intro _
      refine ⟨hcrop, ?_⟩
      intro canvas atlasW rx ry sprW
      rw [hcrop]
      unfold blitSprite
      rw [if_neg (by decide)]
  case pos =>
    have hlt := findIdx_range_lt hC
    set ay := (List.range H).findIdx (rowHas p w) with hay
    have hray : rowHas p w ay = true := findIdx_range_self hlt
    have hmin : ∀ y, y < ay → rowHas p w y = false :=
      fun y hy => findIdx_range_min hy (by omega)
    have hCb : ∃ t, t < H ∧ rowHas p w (H - 1 - t) = true := by
      obtain ⟨y, hy, hq⟩ := hC
      exact ⟨H - 1 - y, by omega, by rw [show H - 1 - (H - 1 - y) = y by omega]; exact hq⟩
    have hltb := findIdx_range_lt hCb
    set yb := (List.range H).findIdx (fun t => rowHas p w (H - 1 - t)) with hyb
    set maxR := H - 1 - yb with hmaxRdef
    have hrby : rowHas p w maxR = true := findIdx_range_self hltb
    have hmaxr : ∀ y, maxR < y → y < H → rowHas p w y = false := by
      intro y h1 h2
      have ht : H - 1 - y < yb := by omega
      have hq := findIdx_range_min ht (by omega)
      rwa [show H - 1 - (H - 1 - y) = y by omega] at hq
    have hayle : ay ≤ maxR := by
      by_contra hcon
      push_neg at hcon
      rw [hmin maxR hcon] at hrby
      exact Bool.noConfusion hrby
    set sh := maxR + 1 - ay with hshdef
    have hCc : ∃ x, x < w ∧ colHas p w ay sh x = true := by
      obtain ⟨x, hx, hpix⟩ := (rowHas_iff p w ay).1 hray
      exact ⟨x, hx, (colHas_iff p w ay sh x).2 ⟨0, by omega, by rw [Nat.zero_add]; exact hpix⟩⟩
    have hltc := findIdx_range_lt hCc
    set ax := (List.range w).findIdx (colHas p w ay sh) with hax
    have hcax : colHas p w ay sh ax = true := findIdx_range_self hltc
    have hminc : ∀ x, x < ax → colHas p w ay sh x = false :=
      fun x hx => findIdx_range_min hx (by omega)
    have hCd : ∃ t, t < w ∧ colHas p w ay sh (w - 1 - t) = true := by
      obtain ⟨x, hx, hq⟩ := hCc
      exact ⟨w - 1 - x, by omega, by rw [show w - 1 - (w - 1 - x) = x by omega]; exact hq⟩
    have hltd := findIdx_range_lt hCd
    set xb := (List.range w).findIdx (fun t => colHas p w ay sh (w - 1 - t)) with hxb
    set maxC := w - 1 - xb with hmaxCdef
    have hcbx : colHas p w ay sh maxC = true := findIdx_range_self hltd
    have hmaxc : ∀ x, maxC < x → x < w → colHas p w ay sh x = false := by
      intro x h1 h2
      have ht : w - 1 - x < xb := by omega
      have hq := findIdx_range_min ht (by omega)
      rwa [show w - 1 - (w - 1 - x) = x by omega] at hq
    have haxle : ax ≤ maxC := by
      by_contra hcon
      push_neg at hcon
      rw [hminc maxC hcon] at hcbx
      exact Bool.noConfusion hcbx
    have hcrop : cropScan p w H = ⟨ax, ay, maxC + 1 - ax, sh⟩ := by
      unfold cropScan
      dsimp only
      rw [← hay, ← hyb, ← hmaxRdef, ← hshdef, ← hax, ← hxb, ← hmaxCdef,
        if_neg (by omega : ¬ay = H)]
    have hcontain : ∀ x y, x < w → y < H → pix p w x y ≠ 0 →
        ax ≤ x ∧ x ≤ maxC ∧ ay ≤ y ∧ y ≤ maxR := by
      intro x y hx hy hpix
      have hry : rowHas p w y = true := (rowHas_iff p w y).2 ⟨x, hx, hpix⟩
      have hy1 : ay ≤ y := by
        by_contra hcon
        push_neg at hcon
        rw [hmin y hcon] at hry
        exact Bool.noConfusion hry
      have hy2 : y ≤ maxR := by
        by_contra hcon
        push_neg at hcon
        rw [hmaxr y hcon hy] at hry
        exact Bool.noConfusion hry
      have hcx : colHas p w ay sh x = true :=
        (colHas_iff p w ay sh x).2
          ⟨y - ay, by omega, by rw [show y - ay + ay = y by omega]; exact hpix⟩
      have hx1 : ax ≤ x := by
        by_contra hcon
        push_neg at hcon
        rw [hminc x hcon] at hcx
        exact Bool.noConfusion hcx
      have hx2 : x ≤ maxC := by
        by_contra hcon
        push_neg at hcon
        rw [hmaxc x hcon hx] at hcx
        exact Bool.noConfusion hcx
      exact ⟨hx1, hx2, hy1, hy2⟩
    refine ⟨⟨?_, ?_, ?_⟩, ?_⟩
    · intro x y hx hy hpix
      obtain ⟨h1, h2, h3, h4⟩ := hcontain x y hx hy hpix
      rw [hcrop]
      exact ⟨h1, by dsimp only; omega, h3, by dsimp only; omega⟩
    · intro _
      rw [hcrop]
      dsimp only
      refine ⟨?_, ?_, ?_, ?_⟩
      · exact (rowHas_iff p w ay).1 hray
      · rw [show ay + sh - 1 = maxR by omega]
        exact (rowHas_iff p w maxR).1 hrby
      · obtain ⟨t, ht, hpix⟩ := (colHas_iff p w ay sh ax).1 hcax
        exact ⟨t + ay, by omega, hpix⟩
      · rw [show ax + (maxC + 1 - ax) - 1 = maxC by omega]
        obtain ⟨t, ht, hpix⟩ := (colHas_iff p w ay sh maxC).1 hcbx
        exact ⟨t + ay, by omega, hpix⟩
    · intro hno
      obtain ⟨x, hx, hpix⟩ := (rowHas_iff p w ay).1 hray
      exact absurd ⟨x, ay, hx, by omega, hpix⟩ hno
    · intro hzero
      obtain ⟨x, hx, hpix⟩ := (rowHas_iff p w ay).1 hray
      exact absurd (hzero x hx ay (by omega)) hpix

theorem int16OfUInt16_pos {v : Nat} (h : 0 < int16OfUInt16 v) : 0 < v := by
  by_contra h0
  have hv : v = 0 := by omega
  rw [hv] at h
  exact absurd h (by decide)

theorem int16OfUInt16_of_lt {v : Nat} (h1 : 0 < v) (h2 : v < 32768) :
    0 < int16OfUInt16 v := by
  unfold int16OfUInt16
  rw [Nat.mod_eq_of_lt (by omega : v < 65536), if_pos h2]
  exact_mod_cast h1

/-- C10 (amended): for a sprite whose `uint16_t` dimensions survive the
`int16_t` narrowing at src/main.cpp:1611-1612 (both `< 0x8000`), the
rectangle `initAtlas` computes is the tightest bounding box of the
nonzero-index pixels (it contains every nonzero pixel and each of its four
edges touches one); a sprite with no nonzero pixel collapses to the zero
rectangle, and `generateAtlas` copies no pixels for it (its guard
`rects[i].w > 0 && rects[i].h > 0` fails), so it occupies no canvas area.
When a dimension is `>= 0x8000` the narrowed value is non-positive, the
guarded scans are skipped, and the final `sprite_width < 1 ||
sprite_height < 1` check zeroes the rectangle even when nonzero pixels
exist, so the original unconditional claim fails (see the
counterexample). -/
theorem claim_c10 (p : List Nat) (w H : Nat) (hw : w < 32768) (hH : H < 32768) :
    IsTightBBox p w H (initAtlasCrop p w H) ∧
    ((∀ x, x < w → ∀ y, y < H → pix p w x y = 0) →
      initAtlasCrop p w H = ⟨0, 0, 0, 0⟩ ∧
      ∀ (canvas : List Nat) (atlasW rx ry sprW : Nat),
        blitSprite canvas atlasW rx ry (initAtlasCrop p w H) p sprW = canvas) := by
  by_cases hpos : 0 < w ∧ 0 < H
  · have hgate : initAtlasCrop p w H = cropScan p w H := by
      unfold initAtlasCrop
      rw [if_pos ⟨int16OfUInt16_of_lt hpos.1 hw, int16OfUInt16_of_lt hpos.2 hH⟩]
    rw [hgate]
    exact cropScan_spec p w H
  · have hc : ¬(0 < int16OfUInt16 w ∧ 0 < int16OfUInt16 H) := fun hcc =>
      hpos ⟨int16OfUInt16_pos hcc.1, int16OfUInt16_pos hcc.2⟩
    have hgate : initAtlasCrop p w H = ⟨0, 0, 0, 0⟩ := by
      unfold initAtlasCrop
      rw [if_neg hc]
    have hnone : ¬∃ x y, x < w ∧ y < H ∧ pix p w x y ≠ 0 := by
      rintro ⟨x, y, hx, hy, -⟩
      exact hpos ⟨by omega, by omega⟩
    rw [hgate]
    refine ⟨⟨?_, ?_, ?_⟩, ?_⟩
    · intro x y hx hy hpix
      exact absurd ⟨x, y, hx, hy, hpix⟩ hnone
    · intro hex
      exact absurd hex hnone
    · intro _
      rfl
    · intro _
      refine ⟨rfl, ?_⟩
      intro canvas atlasW rx ry sprW
      unfold blitSprite
      rw [if_neg (by decide)]

/-- C10 witness: a 2×2 sprite with a single nonzero pixel at (1, 0); both
dimensions are below 0x8000, and the computed rectangle is its 1×1 tight
bounding box. -/
theorem claim_c10_witness :
    IsTightBBox [0, 1, 0, 0] 2 2 (initAtlasCrop [0, 1, 0, 0] 2 2) ∧
    initAtlasCrop [0, 1, 0, 0] 2 2 = ⟨1, 0, 1, 1⟩ :=
  ⟨(claim_c10 [0, 1, 0, 0] 2 2 (by decide) (by decide)).1, by decide⟩

/-- C10 counterexample: the 32768-wide one-row sprite `c10Big` has a nonzero
pixel at (0, 0), yet the `int16_t` narrowing of the width zeroes the computed
rectangle, which therefore is not a tight bounding box. -/
theorem claim_c10_cex :
    initAtlasCrop c10Big 32768 1 = ⟨0, 0, 0, 0⟩ ∧
    pix c10Big 32768 0 0 ≠ 0 ∧
    ¬IsTightBBox c10Big 32768 1 (initAtlasCrop c10Big 32768 1) := by
  have hr : initAtlasCrop c10Big 32768 1 = ⟨0, 0, 0, 0⟩ := by
    unfold initAtlasCrop
    rw [if_neg (by decide)]
  have hpx : pix c10Big 32768 0 0 ≠ 0 := by decide
  refine ⟨hr, hpx, fun hbb => ?_⟩
  have h := hbb.1 0 0 (by decide) (by decide) hpx
  rw [hr] at h
  exact absurd h.2.1 (by decide)

end Sff
